import Mathlib

/-!
A shallow embedding of `src/lexer.py` (a hand-written lexical analyzer for a
C-like language) and proofs about it.

Modelling conventions:
* The scanner state (`Lexer`) keeps the remaining input `rest : List Char`
  instead of the pair (src, pos); the Python cursor only moves forward, so the
  suffix determines everything the code can still observe.
* Python's character classification is used on ASCII inputs only, where
  `str.isalpha`/`isdigit`/`isalnum` agree with `Char.isAlpha`/`isDigit`/
  `isAlphanum`.
* Python exceptions that escape `tokenize` are modelled as `none`:
  `_skip_ws` evaluates `None in ' \t\r\n'` at end of input (a `TypeError`),
  and an octal escape whose first digit is `8` or `9` evaluates
  `int(oct_val, 8)` (a `ValueError`).  Both are reachable, so the functions
  that can raise return `Option`.
* The decoded values `char_val` (in `_scan_char`) and `string_content`
  (in `_scan_string`) are computed by the source but flow into no output
  (tokens carry the raw display text); only their ability to raise
  `ValueError` is observable, and that is modelled.
* The driver loop is given explicit fuel (`tokenizeLoop`); `tokenize` runs it
  with fuel `length + 1`, and `tokenizeLoop_adequate` proves this fuel is
  never exhausted, so the fuel is a proof device, not a semantic change.
-/

set_option maxRecDepth 100000

/-- Token record: `(code, value, attr, line, col)` as in the Python `Token`
class.  `attr` is the literal attribute string: `"-"`, `"SYM:n"` or
`"CONST:n"`. -/
structure Token where
  code : Nat
  value : String
  attr : String
  line : Nat
  col : Nat
deriving Repr, DecidableEq

/-- Lexical error record, mirroring the Python `LexError` class
(`error_type`, position, offending text, optional qualifier).  The derived
`msg` field (a lookup in `ERROR_TYPES`) is omitted as it is a pure function of
`error_type`. -/
structure LexError where
  error_type : String
  line : Nat
  col : Nat
  value : String
  extra_info : String
deriving Repr, DecidableEq

/-- Scanner state: remaining input plus the cursor line/column and the four
output accumulators of the Python `Lexer` class. -/
structure Lexer where
  rest : List Char
  line : Nat
  col : Nat
  tokens : List Token
  errors : List LexError
  sym_table : List String
  const_table : List String
deriving Repr, DecidableEq

/-- Keyword set (`KEYWORDS`). -/
def KEYWORDS : List String :=
  ["if", "then", "else", "begin", "end", "int", "float", "char",
   "while", "do", "return", "for", "void", "break", "continue",
   "switch", "case", "default", "struct", "const", "typedef"]

/-- Single-character operators (`SINGLE_OPS`). -/
def SINGLE_OPS : List Char :=
  ['+', '-', '*', '/', '%', '=', '&', '|', '^', '~', '!', '<', '>']

/-- Two-character operators (`DOUBLE_OPS`). -/
def DOUBLE_OPS : List String :=
  ["++", "--", "+=", "-=", "*=", "/=", "%=", "&&", "||",
   "<<", ">>", "&=", "|=", "^=", "<=", ">=", "<>", "==", "!=", "->"]

/-- Three-character operators (`TRIPLE_OPS`). -/
def TRIPLE_OPS : List String := ["<<=", ">>="]

/-- Delimiters (`DELIMITERS`). -/
def DELIMITERS : List Char :=
  ['(', ')', '[', ']', '\x7b', '\x7d', ';', '#', ',', ':', '.']

/-- The token-code table `CODE`.  The Python dict lookup `CODE[k]` is only
performed at keys present in the dict; the default arm is never reached by
the scanner. -/
def CODE : String → Nat
  | "if" => 1 | "then" => 2 | "else" => 3 | "begin" => 4 | "end" => 5
  | "int" => 6 | "float" => 7 | "char" => 8 | "while" => 9 | "do" => 10
  | "return" => 11 | "for" => 12 | "void" => 13 | "break" => 14
  | "continue" => 15 | "switch" => 16 | "case" => 17 | "default" => 18
  | "struct" => 19 | "const" => 20 | "typedef" => 21
  | "ID" => 50 | "INT" => 51 | "FLOAT" => 52 | "CHAR" => 53
  | "STRING" => 54 | "HEX" => 55 | "OCT" => 56
  | "+" => 60 | "-" => 61 | "*" => 62 | "/" => 63 | "%" => 64 | "=" => 65
  | "++" => 66 | "--" => 67 | "+=" => 68 | "-=" => 69 | "*=" => 70
  | "/=" => 71 | "%=" => 72
  | "&" => 80 | "|" => 81 | "^" => 82 | "~" => 83 | "<<" => 84 | ">>" => 85
  | "&=" => 86 | "|=" => 87 | "^=" => 88 | "<<=" => 89 | ">>=" => 90
  | "&&" => 100 | "||" => 101 | "!" => 102
  | "<" => 110 | ">" => 111 | "<=" => 112 | ">=" => 113 | "<>" => 114
  | "==" => 115 | "!=" => 116
  | "->" => 120
  | "(" => 130 | ")" => 131 | "[" => 132 | "]" => 133 | "\x7b" => 134
  | "\x7d" => 135 | ";" => 136 | "#" => 137 | "," => 138 | ":" => 139
  | "." => 140
  | _ => 0

/-- The escape table `ESCAPE_CHARS`, as a partial map (Python: membership test
then lookup). -/
def ESCAPE_CHARS : Char → Option Char
  | 'n' => some '\n'
  | 't' => some '\t'
  | 'r' => some '\r'
  | '0' => some '\x00'
  | '\\' => some '\\'
  | '\x27' => some '\x27'
  | '"' => some '"'
  | 'a' => some '\x07'
  | 'b' => some '\x08'
  | 'f' => some '\x0c'
  | 'v' => some '\x0b'
  | _ => none

/-- Line update of `_advance` for one consumed character. -/
def nextLine (c : Char) (line : Nat) : Nat := if c = '\n' then line + 1 else line

/-- Column update of `_advance` for one consumed character. -/
def nextCol (c : Char) (col : Nat) : Nat := if c = '\n' then 1 else col + 1

/-- `_advance`: consume one character (identity at end of input, like the
Python method, which then returns `None` without moving). -/
def advance (lx : Lexer) : Lexer :=
  match lx.rest with
  | [] => lx
  | c :: cs => { lx with rest := cs, line := nextLine c lx.line, col := nextCol c lx.col }

/-- `list.index` for the first occurrence (Python `tbl.index(x)`; only called
when `x` is present). -/
def indexOfL : List String → String → Nat
  | [], _ => 0
  | x :: xs, y => if x = y then 0 else indexOfL xs y + 1

/-- The shared lookup-or-insert step of `_add_sym` / `_add_const`: append the
spelling if absent, then return the index of its first occurrence. -/
def lookupOrInsert (tbl : List String) (x : String) : List String × Nat :=
  let tbl2 := if x ∈ tbl then tbl else tbl ++ [x]
  (tbl2, indexOfL tbl2 x)

/-- `_add_sym`: lookup-or-insert into the identifier table. -/
def _add_sym (lx : Lexer) (name : String) : Lexer × Nat :=
  match lookupOrInsert lx.sym_table name with
  | (t, i) => ({ lx with sym_table := t }, i)

/-- `_add_const`: lookup-or-insert into the constant table. -/
def _add_const (lx : Lexer) (v : String) : Lexer × Nat :=
  match lookupOrInsert lx.const_table v with
  | (t, i) => ({ lx with const_table := t }, i)

/-- Hexadecimal-digit test used by the hex scanners
(`isdigit or lower in 'abcdef'`; the literal form
`lower in '0123456789abcdef'` used inside escapes agrees with it, since
`toLower` fixes digits). -/
def isHexChar (c : Char) : Bool :=
  c.isDigit || c.toLower ∈ (['a', 'b', 'c', 'd', 'e', 'f'] : List Char)

/-- Character test of an identifier continuation (`isalnum() or == '_'`). -/
def isIdChar (c : Char) : Bool := c.isAlphanum || c = '_'

/-- Whitespace test of `_skip_ws` (`in ' \t\r\n'`). -/
def isWsChar (c : Char) : Bool := c = ' ' || c = '\t' || c = '\r' || c = '\n'

/-- `_skip_ws` loop on the remaining input.  `none` models the Python
`TypeError` raised by `None in ' \t\r\n'` when the end of input is reached
while skipping. -/
def skipWsL : List Char → Nat → Nat → Option (List Char × Nat × Nat)
  | [], _, _ => none
  | c :: cs, line, col =>
    if isWsChar c then skipWsL cs (nextLine c line) (nextCol c col)
    else some (c :: cs, line, col)

/-- The `//` loop of `_skip_comment`: consume to (excluding) end of line. -/
def skipToEolL : List Char → Nat → Nat → List Char × Nat × Nat
  | [], line, col => ([], line, col)
  | c :: cs, line, col =>
    if c = '\n' then (c :: cs, line, col)
    else skipToEolL cs (nextLine c line) (nextCol c col)

/-- The `/* ... */` loop of `_skip_comment`: consume up to and including
`*/`; at end of input record the unclosed-comment error anchored at the
comment start `(sl, sc)`. -/
def blockLoopL : List Char → Nat → Nat → Nat → Nat → List LexError →
    List Char × Nat × Nat × List LexError
  | [], line, col, sl, sc, errs =>
    ([], line, col, errs ++ [⟨"UNCLOSED_COMMENT", sl, sc, "/*", ""⟩])
  | '*' :: '/' :: cs, line, col, _, _, errs =>
    (cs, nextLine '/' (nextLine '*' line), nextCol '/' (nextCol '*' col), errs)
  | c :: cs, line, col, sl, sc, errs =>
    blockLoopL cs (nextLine c line) (nextCol c col) sl sc errs

/-- Identifier-run loop (`while isalnum or '_'`), shared by `_scan_id`,
`_scan_illegal_id` and the letter-suffix recovery of the number scanners.
Returns the state after the run and the consumed run. -/
def idLoopL : List Char → Nat → Nat → List Char × Nat × Nat × List Char
  | [], line, col => ([], line, col, [])
  | c :: cs, line, col =>
    if isIdChar c then
      match idLoopL cs (nextLine c line) (nextCol c col) with
      | (r, l, co, run) => (r, l, co, c :: run)
    else (c :: cs, line, col, [])

/-- Digit-run loop (`while isdigit`). -/
def digitLoopL : List Char → Nat → Nat → List Char × Nat × Nat × List Char
  | [], line, col => ([], line, col, [])
  | c :: cs, line, col =>
    if c.isDigit then
      match digitLoopL cs (nextLine c line) (nextCol c col) with
      | (r, l, co, run) => (r, l, co, c :: run)
    else (c :: cs, line, col, [])

/-- Hex-digit-run loop of `_scan_hex`. -/
def hexDigLoopL : List Char → Nat → Nat → List Char × Nat × Nat × List Char
  | [], line, col => ([], line, col, [])
  | c :: cs, line, col =>
    if isHexChar c then
      match hexDigLoopL cs (nextLine c line) (nextCol c col) with
      | (r, l, co, run) => (r, l, co, c :: run)
    else (c :: cs, line, col, [])

/-- Digit-run loop of `_scan_octal`: on meeting `8`/`9` it consumes the rest
of the digit run and signals the illegal-octal case with `true`. -/
def octLoopL : List Char → Nat → Nat → List Char × Nat × Nat × List Char × Bool
  | [], line, col => ([], line, col, [], false)
  | c :: cs, line, col =>
    if c.isDigit then
      if c = '8' || c = '9' then
        match digitLoopL (c :: cs) line col with
        | (r, l, co, run) => (r, l, co, run, true)
      else
        match octLoopL cs (nextLine c line) (nextCol c col) with
        | (r, l, co, run, bad) => (r, l, co, c :: run, bad)
    else (c :: cs, line, col, [], false)

/-- The multiple-decimal-point recovery loop of `_scan_decimal_part`
(`while isdigit or '.'`). -/
def dotRunLoopL : List Char → Nat → Nat → List Char × Nat × Nat × List Char
  | [], line, col => ([], line, col, [])
  | c :: cs, line, col =>
    if c.isDigit || c = '.' then
      match dotRunLoopL cs (nextLine c line) (nextCol c col) with
      | (r, l, co, run) => (r, l, co, c :: run)
    else (c :: cs, line, col, [])

/-- The extra-characters loop of `_scan_char`
(`while char and char != "'" and char != '\n'`), returning the consumed
run. -/
def extraLoopL : List Char → Nat → Nat → List Char × Nat × Nat × List Char
  | [], line, col => ([], line, col, [])
  | c :: cs, line, col =>
    if c = '\x27' || c = '\n' then (c :: cs, line, col, [])
    else
      match extraLoopL cs (nextLine c line) (nextCol c col) with
      | (r, l, co, run) => (r, l, co, c :: run)

/-- The abort loop of the `\x`-escape error inside `_scan_char`:
skip to the next `'` or newline without consuming it. -/
def skipQNlL : List Char → Nat → Nat → List Char × Nat × Nat
  | [], line, col => ([], line, col)
  | c :: cs, line, col =>
    if c = '\x27' || c = '\n' then (c :: cs, line, col)
    else skipQNlL cs (nextLine c line) (nextCol c col)

/-- Numeric value of one hex digit (for `chr(int(hex_val, 16))`). -/
def hexDigVal (c : Char) : Nat :=
  if c.isDigit then c.toNat - 48 else c.toLower.toNat - 97 + 10

/-- `int(digits, 8)` on an octal digit run. -/
def octVal (ds : List Char) : Nat := ds.foldl (fun a c => 8 * a + (c.toNat - 48)) 0

/-- `int(hex_val, 16)` on a hex digit run. -/
def hexNum (ds : List Char) : Nat := ds.foldl (fun a c => 16 * a + hexDigVal c) 0

/-- The `for _ in range(2)` consumption pattern of the escape decoders:
consume up to two consecutive characters satisfying `p`, returning the rest
of the input and the consumed run. -/
def upTo2 (p : Char → Bool) : List Char → List Char × List Char
  | [] => ([], [])
  | c1 :: cs1 =>
    if p c1 then
      match cs1 with
      | c2 :: cs2 => if p c2 then (cs2, [c1, c2]) else (c2 :: cs2, [c1])
      | [] => ([], [c1])
    else (c1 :: cs1, [])

theorem upTo2_len (p : Char → Bool) (cs : List Char) :
    (upTo2 p cs).1.length ≤ cs.length := by
  match cs with
  | [] => simp [upTo2]
  | c1 :: cs1 =>
    simp only [upTo2]
    split
    · match cs1 with
      | [] => simp
      | c2 :: cs2 => simp only; split <;> simp_arith
    · simp

/-- Line number after consuming a run of characters one `_advance` at a
time. -/
def advLine (run : List Char) (line : Nat) : Nat :=
  run.foldl (fun l c => nextLine c l) line

/-- Column after consuming a run of characters one `_advance` at a time. -/
def advCol (run : List Char) (col : Nat) : Nat :=
  run.foldl (fun co c => nextCol c co) col

/-- The octal-digit test of the octal escape decoders
(`isdigit() and < '8'`). -/
def isOctChar (c : Char) : Bool := c.isDigit && c < '8'

/-- The scanning loop of `_scan_string`
(`while char and char != '"' and char != '\n'`).
Arguments: remaining input, line, col, literal start `(sl, sc)` used to
anchor escape errors, error list.  Returns the state at loop exit plus the
consumed run (which the caller appends to `val`) and the decoded
`string_content`.  `none` models the `ValueError` of `int(oct_val, 8)` on an
octal escape starting with `8`/`9`. -/
def strLoopL : List Char → Nat → Nat → Nat → Nat → List LexError →
    Option (List Char × Nat × Nat × List LexError × List Char × List Char)
  | [], line, col, _, _, errs => some ([], line, col, errs, [], [])
  | c :: cs, line, col, sl, sc, errs =>
    if c = '"' || c = '\n' then some (c :: cs, line, col, errs, [], [])
    else if c = '\\' then
      match _hcs : cs with
      | [] => some ([], nextLine c line, nextCol c col, errs, [c], [])
      | ec :: cs2 =>
        if ec = '\n' then some (ec :: cs2, nextLine c line, nextCol c col, errs, [c], [])
        else
          let l2 := nextLine ec (nextLine c line)
          let c2 := nextCol ec (nextCol c col)
          if ec = 'x' then
            let t := upTo2 isHexChar cs2
            if t.2.isEmpty then
              match strLoopL t.1 (advLine t.2 l2) (advCol t.2 c2) sl sc
                  (errs ++ [⟨"ILLEGAL_ESCAPE", sl, sc, "\\x", ""⟩]) with
              | none => none
              | some (r, l, co, es, v, ct) => some (r, l, co, es, c :: ec :: v, ct)
            else
              match strLoopL t.1 (advLine t.2 l2) (advCol t.2 c2) sl sc errs with
              | none => none
              | some (r, l, co, es, v, ct) =>
                some (r, l, co, es, c :: ec :: (t.2 ++ v),
                      Char.ofNat (hexNum t.2) :: ct)
          else
            match ESCAPE_CHARS ec with
            | some ev =>
              match strLoopL cs2 l2 c2 sl sc errs with
              | none => none
              | some (r, l, co, es, v, ct) => some (r, l, co, es, c :: ec :: v, ev :: ct)
            | none =>
              if ec.isDigit then
                if ec = '8' || ec = '9' then none
                else
                  let t := upTo2 isOctChar cs2
                  match strLoopL t.1 (advLine t.2 l2) (advCol t.2 c2) sl sc errs with
                  | none => none
                  | some (r, l, co, es, v, ct) =>
                    some (r, l, co, es, c :: ec :: (t.2 ++ v),
                          Char.ofNat (octVal (ec :: t.2)) :: ct)
              else
                match strLoopL cs2 l2 c2 sl sc
                    (errs ++ [⟨"ILLEGAL_ESCAPE", sl, sc, ⟨['\\', ec]⟩, ""⟩]) with
                | none => none
                | some (r, l, co, es, v, ct) => some (r, l, co, es, c :: ec :: v, ec :: ct)
    else
      match strLoopL cs (nextLine c line) (nextCol c col) sl sc errs with
      | none => none
      | some (r, l, co, es, v, ct) => some (r, l, co, es, c :: v, c :: ct)
termination_by r _ _ _ _ _ => r.length
decreasing_by
  all_goals simp_all
  all_goals (first
    | omega
    | (have hx2 := upTo2_len isHexChar cs2; omega)
    | (have ho2 := upTo2_len isOctChar cs2; omega))

/-- `_skip_ws` on the scanner state (`none` = the `TypeError` described at
`skipWsL`). -/
def _skip_ws (lx : Lexer) : Option Lexer :=
  match skipWsL lx.rest lx.line lx.col with
  | none => none
  | some (r, l, c) => some { lx with rest := r, line := l, col := c }

/-- `_skip_comment`: recognize `//` and `/* ... */`; the returned flag tells
the driver loop whether a comment was consumed. -/
def _skip_comment (lx : Lexer) : Lexer × Bool :=
  match lx.rest with
  | '/' :: '/' :: _ =>
    match skipToEolL lx.rest lx.line lx.col with
    | (r, l, c) => ({ lx with rest := r, line := l, col := c }, true)
  | '/' :: '*' :: cs =>
    match blockLoopL cs (nextLine '*' (nextLine '/' lx.line))
        (nextCol '*' (nextCol '/' lx.col)) lx.line lx.col lx.errors with
    | (r, l, c, errs) => ({ lx with rest := r, line := l, col := c, errors := errs }, true)
  | _ => (lx, false)

/-- Python `str.lower()` on the scanned lexeme (character-wise ASCII-compatible
lowering; identifier characters are ASCII here). -/
def lowerStr (s : String) : String := ⟨s.data.map Char.toLower⟩

/-- `_scan_id`: scan an identifier/keyword run and classify it.  The Python
method always returns a `Token`. -/
def _scan_id (lx : Lexer) : Lexer × Token :=
  let sl := lx.line
  let sc := lx.col
  match idLoopL lx.rest lx.line lx.col with
  | (r, l, co, run) =>
    let lx1 : Lexer := { lx with rest := r, line := l, col := co }
    let s : String := ⟨run⟩
    if lowerStr s ∈ KEYWORDS then (lx1, ⟨CODE (lowerStr s), s, "-", sl, sc⟩)
    else
      match _add_sym lx1 s with
      | (lx2, idx) => (lx2, ⟨CODE "ID", s, "SYM:" ++ toString idx, sl, sc⟩)

/-- `_scan_illegal_id`: the digit-initial illegal-identifier entry point.
It is defined in the source but never called by `tokenize`. -/
def _scan_illegal_id (lx : Lexer) : Lexer × Option Token :=
  let sl := lx.line
  let sc := lx.col
  match idLoopL lx.rest lx.line lx.col with
  | (r, l, co, run) =>
    ({ lx with rest := r, line := l, col := co, errors := lx.errors ++ [⟨"ILLEGAL_ID", sl, sc, ⟨run⟩, "标识符不能以数字开头"⟩] }, none)

/-- `_scan_hex`: scan `0x...`.  Only called by `_scan_num` with the input
starting `0x`/`0X`, so the final arm is unreachable. -/
def _scan_hex (sl sc : Nat) (lx : Lexer) : Lexer × Option Token :=
  match lx.rest with
  | c0 :: c1 :: cs =>
    let l1 := nextLine c1 (nextLine c0 lx.line)
    let co1 := nextCol c1 (nextCol c0 lx.col)
    match hexDigLoopL cs l1 co1 with
    | (r, l, co, hexRun) =>
      if hexRun.isEmpty then
        match r with
        | c :: _ =>
          if c.isAlpha then
            match idLoopL r l co with
            | (r2, l2, co2, run) =>
              ({ lx with rest := r2, line := l2, col := co2, errors := lx.errors ++ [⟨"ILLEGAL_HEX", sl, sc, ⟨[c0, c1] ++ run⟩, "包含非法字符"⟩] }, none)
          else
            ({ lx with rest := r, line := l, col := co, errors := lx.errors ++ [⟨"ILLEGAL_HEX", sl, sc, ⟨[c0, c1]⟩, "缺少十六进制数字"⟩] }, none)
        | [] =>
          ({ lx with rest := r, line := l, col := co, errors := lx.errors ++ [⟨"ILLEGAL_HEX", sl, sc, ⟨[c0, c1]⟩, "缺少十六进制数字"⟩] }, none)
      else
        let v : String := ⟨[c0, c1] ++ hexRun⟩
        match _add_const { lx with rest := r, line := l, col := co } v with
        | (lx2, idx) => (lx2, some ⟨CODE "HEX", v, "CONST:" ++ toString idx, sl, sc⟩)
  | _ => (lx, none)

/-- Emit an `OCT` token (tail of `_scan_octal`). -/
def finishOct (val : List Char) (sl sc : Nat) (lx : Lexer) : Lexer × Option Token :=
  match _add_const lx ⟨val⟩ with
  | (lx2, idx) => (lx2, some ⟨CODE "OCT", ⟨val⟩, "CONST:" ++ toString idx, sl, sc⟩)

/-- Emit the final `INT`/`FLOAT` token (tail of `_scan_decimal_part`). -/
def finishNum (val : List Char) (has_dot has_exp : Bool) (sl sc : Nat) (lx : Lexer) :
    Lexer × Option Token :=
  if val.isEmpty then (lx, none)
  else
    match _add_const lx ⟨val⟩ with
    | (lx2, idx) =>
      (lx2, some ⟨if has_dot || has_exp then CODE "FLOAT" else CODE "INT", ⟨val⟩,
                  "CONST:" ++ toString idx, sl, sc⟩)

/-- The trailing-letter check and final classification of
`_scan_decimal_part` (lines after the exponent handling). -/
def decimalSuffix (val : List Char) (has_dot has_exp : Bool) (sl sc : Nat) (lx : Lexer) :
    Lexer × Option Token :=
  match lx.rest with
  | c :: _ =>
    if c.isAlpha || c = '_' then
      match idLoopL lx.rest lx.line lx.col with
      | (r, l, co, extra) =>
        ({ lx with rest := r, line := l, col := co, errors := lx.errors ++ [⟨"ILLEGAL_NUMBER", sl, sc, ⟨val ++ extra⟩, "数字后不能直接跟字母"⟩] }, none)
    else finishNum val has_dot has_exp sl sc lx
  | [] => finishNum val has_dot has_exp sl sc lx

/-- The exponent stage of `_scan_decimal_part` (`e`/`E`, optional sign,
mandatory digits), followed by `decimalSuffix`. -/
def decimalAfterDot (val : List Char) (has_dot : Bool) (sl sc : Nat) (lx : Lexer) :
    Lexer × Option Token :=
  match lx.rest with
  | e :: cs =>
    if e.toLower = 'e' then
      let l1 := nextLine e lx.line
      let c1 := nextCol e lx.col
      match cs with
      | s :: cs2 =>
        if s = '+' || s = '-' then
          match digitLoopL cs2 (nextLine s l1) (nextCol s c1) with
          | (r, l, co, expd) =>
            if expd.isEmpty then
              ({ lx with rest := r, line := l, col := co, errors := lx.errors ++ [⟨"ILLEGAL_FLOAT", sl, sc, ⟨val ++ [e, s]⟩, "指数部分缺少数字"⟩] }, none)
            else
              decimalSuffix (val ++ e :: s :: expd) has_dot true sl sc
                { lx with rest := r, line := l, col := co }
        else
          match digitLoopL cs l1 c1 with
          | (r, l, co, expd) =>
            if expd.isEmpty then
              ({ lx with rest := r, line := l, col := co, errors := lx.errors ++ [⟨"ILLEGAL_FLOAT", sl, sc, ⟨val ++ [e]⟩, "指数部分缺少数字"⟩] }, none)
            else
              decimalSuffix (val ++ e :: expd) has_dot true sl sc
                { lx with rest := r, line := l, col := co }
      | [] =>
        ({ lx with rest := [], line := l1, col := c1, errors := lx.errors ++ [⟨"ILLEGAL_FLOAT", sl, sc, ⟨val ++ [e]⟩, "指数部分缺少数字"⟩] }, none)
    else decimalSuffix val has_dot false sl sc lx
  | [] => decimalSuffix val has_dot false sl sc lx

/-- `_scan_decimal_part`: fraction (with the `..` carve-out and the
multiple-decimal-point recovery), then exponent, then the trailing-letter
check. -/
def _scan_decimal_part (int_part : List Char) (sl sc : Nat) (lx : Lexer) :
    Lexer × Option Token :=
  match lx.rest with
  | '.' :: '.' :: _ =>
    if int_part.isEmpty then (lx, none)
    else
      match _add_const lx ⟨int_part⟩ with
      | (lx2, idx) =>
        (lx2, some ⟨CODE "INT", ⟨int_part⟩, "CONST:" ++ toString idx, sl, sc⟩)
  | '.' :: cs =>
    match digitLoopL cs (nextLine '.' lx.line) (nextCol '.' lx.col) with
    | (r, l, co, frac) =>
      if frac.isEmpty && int_part.isEmpty then
        ({ lx with rest := r, line := l, col := co, errors := lx.errors ++ [⟨"ILLEGAL_FLOAT", sl, sc, ⟨int_part ++ ['.']⟩, "缺少数字"⟩] }, none)
      else
        let val := int_part ++ '.' :: frac
        match r with
        | '.' :: _ =>
          match dotRunLoopL r l co with
          | (r2, l2, co2, extra) =>
            ({ lx with rest := r2, line := l2, col := co2, errors := lx.errors ++ [⟨"ILLEGAL_FLOAT", sl, sc, ⟨val ++ extra⟩, "多个小数点"⟩] }, none)
        | _ => decimalAfterDot val true sl sc { lx with rest := r, line := l, col := co }
  | _ => decimalAfterDot int_part false sl sc lx

/-- `_scan_decimal`: integer digit run, then `_scan_decimal_part`. -/
def _scan_decimal (sl sc : Nat) (lx : Lexer) : Lexer × Option Token :=
  match digitLoopL lx.rest lx.line lx.col with
  | (r, l, co, run) => _scan_decimal_part run sl sc { lx with rest := r, line := l, col := co }

/-- `_scan_octal`: leading `0`, digit run with the `8`/`9` check, trailing
letter check, and the octal-to-float fallback. -/
def _scan_octal (sl sc : Nat) (lx : Lexer) : Lexer × Option Token :=
  match lx.rest with
  | c0 :: cs =>
    match octLoopL cs (nextLine c0 lx.line) (nextCol c0 lx.col) with
    | (r, l, co, run, bad) =>
      if bad then
        ({ lx with rest := r, line := l, col := co, errors := lx.errors ++ [⟨"ILLEGAL_OCT", sl, sc, ⟨c0 :: run⟩, "八进制数不能包含8或9"⟩] }, none)
      else
        let val := c0 :: run
        let lx1 : Lexer := { lx with rest := r, line := l, col := co }
        match r with
        | c :: cs2 =>
          if c.isAlpha then
            match idLoopL r l co with
            | (r2, l2, co2, run2) =>
              ({ lx with rest := r2, line := l2, col := co2, errors := lx.errors ++ [⟨"ILLEGAL_NUMBER", sl, sc, ⟨val ++ run2⟩, ""⟩] }, none)
          else if c = '.' && (match cs2 with | d :: _ => d.isDigit | [] => false) then
            _scan_decimal_part val sl sc lx1
          else finishOct val sl sc lx1
        | [] => finishOct val sl sc lx1
  | [] => (lx, none)

/-- `_scan_num`: radix dispatch on the leading characters.  Only called with
a digit at the cursor, so the empty arm is unreachable. -/
def _scan_num (lx : Lexer) : Lexer × Option Token :=
  let sl := lx.line
  let sc := lx.col
  match lx.rest with
  | '0' :: c :: _ =>
    if c = 'x' || c = 'X' then _scan_hex sl sc lx
    else if c.isDigit then _scan_octal sl sc lx
    else _scan_decimal sl sc lx
  | _ => _scan_decimal sl sc lx

/-- `_scan_leading_dot_number`: numbers like `.5` (dispatched when the cursor
is at `.` followed by a digit). -/
def _scan_leading_dot_number (lx : Lexer) : Lexer × Option Token :=
  let sl := lx.line
  let sc := lx.col
  match lx.rest with
  | '.' :: d :: _ => if d.isDigit then _scan_decimal_part [] sl sc lx else (lx, none)
  | _ => (lx, none)

/-- The common tail of `_scan_char`: accumulate extra characters, then check
the closing quote, then the multi-character check, then emit.  `dv` is the
display text collected so far. -/
def charTail (sl sc : Nat) (dv : List Char) (lx : Lexer) : Lexer × Option Token :=
  match extraLoopL lx.rest lx.line lx.col with
  | (r, l, co, extra) =>
    let dv2 := dv ++ extra
    match r with
    | '\x27' :: cs2 =>
      let lx1 : Lexer := { lx with rest := cs2, line := nextLine '\x27' l, col := nextCol '\x27' co }
      let dv3 := dv2 ++ ['\x27']
      if extra.isEmpty then
        match _add_const lx1 ⟨dv3⟩ with
        | (lx2, idx) => (lx2, some ⟨CODE "CHAR", ⟨dv3⟩, "CONST:" ++ toString idx, sl, sc⟩)
      else ({ lx1 with errors := lx1.errors ++ [⟨"MULTI_CHAR", sl, sc, ⟨dv3⟩, ""⟩] }, none)
    | _ =>
      ({ lx with rest := r, line := l, col := co, errors := lx.errors ++ [⟨"UNCLOSED_CHAR", sl, sc, ⟨dv2⟩, ""⟩] }, none)

/-- The abort path of a digit-less `\x` escape inside `_scan_char`: record
the illegal-escape error, skip to the next `'` or newline, consume a `'` if
that is what stopped the skip, and produce no token. -/
def charXFail (sl sc : Nat) (dv : List Char) (lx : Lexer) : Lexer × Option Token :=
  let lx1 : Lexer := { lx with errors := lx.errors ++ [⟨"ILLEGAL_ESCAPE", sl, sc, ⟨dv⟩, ""⟩] }
  match skipQNlL lx1.rest lx1.line lx1.col with
  | (r, l, co) =>
    let lx2 : Lexer := { lx1 with rest := r, line := l, col := co }
    match r with
    | '\x27' :: _ => (advance lx2, none)
    | _ => (lx2, none)

/-- `_scan_char`: character literals.  `none` models the `ValueError` of
`chr(int(oct_val, 8))` when an octal escape starts with `8`/`9`; otherwise
`some (state, emitted token)`. -/
def _scan_char (lx : Lexer) : Option (Lexer × Option Token) :=
  let sl := lx.line
  let sc := lx.col
  let lx1 := advance lx
  match lx1.rest with
  | [] => some ({ lx1 with errors := lx1.errors ++ [⟨"UNCLOSED_CHAR", sl, sc, "\x27", ""⟩] }, none)
  | c :: cs =>
    if c = '\n' then
      some ({ lx1 with errors := lx1.errors ++ [⟨"UNCLOSED_CHAR", sl, sc, "\x27", ""⟩] }, none)
    else if c = '\x27' then
      let lx2 := advance lx1
      some ({ lx2 with errors := lx2.errors ++ [⟨"EMPTY_CHAR", sl, sc, "\x27\x27", ""⟩] }, none)
    else if c = '\\' then
      let lx2 := advance lx1
      match cs with
      | [] => some ({ lx2 with errors := lx2.errors ++ [⟨"UNCLOSED_CHAR", sl, sc, "\x27\\", ""⟩] }, none)
      | ec :: _ =>
        let lx3 := advance lx2
        let dv : List Char := ['\x27', '\\', ec]
        if ec = 'x' then
          match upTo2 isHexChar lx3.rest with
          | (_, hx) =>
            if hx.isEmpty then some (charXFail sl sc dv lx3)
            else
              let lx4 : Lexer := { lx3 with rest := (upTo2 isHexChar lx3.rest).1, line := advLine hx lx3.line, col := advCol hx lx3.col }
              some (charTail sl sc (dv ++ hx) lx4)
        else if (ESCAPE_CHARS ec).isSome then some (charTail sl sc dv lx3)
        else if ec.isDigit then
          if ec = '8' || ec = '9' then none
          else
            match upTo2 isOctChar lx3.rest with
            | (_, od) =>
              let lx4 : Lexer := { lx3 with rest := (upTo2 isOctChar lx3.rest).1, line := advLine od lx3.line, col := advCol od lx3.col }
              some (charTail sl sc (dv ++ od) lx4)
        else
          some (charTail sl sc dv { lx3 with errors := lx3.errors ++ [⟨"ILLEGAL_ESCAPE", sl, sc, ⟨['\\', ec]⟩, ""⟩] })
    else
      some (charTail sl sc ['\x27', c] (advance lx1))

/-- `_scan_string`: string literals.  The loop result's consumed run is
appended to the opening quote to form the raw lexeme; `none` propagates the
octal-escape `ValueError`. -/
def _scan_string (lx : Lexer) : Option (Lexer × Option Token) :=
  let sl := lx.line
  let sc := lx.col
  let lx1 := advance lx
  match strLoopL lx1.rest lx1.line lx1.col sl sc lx1.errors with
  | none => none
  | some (r, l, co, errs, v, _content) =>
    let val : List Char := '"' :: v
    let lx2 : Lexer := { lx1 with rest := r, line := l, col := co, errors := errs }
    match r with
    | '"' :: cs =>
      let lx3 : Lexer := { lx2 with rest := cs, line := nextLine '"' l, col := nextCol '"' co }
      let val2 := val ++ ['"']
      match _add_const lx3 ⟨val2⟩ with
      | (lx4, idx) => some (lx4, some ⟨CODE "STRING", ⟨val2⟩, "CONST:" ++ toString idx, sl, sc⟩)
    | _ =>
      some ({ lx2 with errors := lx2.errors ++ [⟨"UNCLOSED_STRING", sl, sc, ⟨val⟩, ""⟩] }, none)

/-- Single-character stage of `_scan_op`. -/
def opOne (sl sc : Nat) (lx : Lexer) : Lexer × Option Token :=
  match lx.rest with
  | c :: _ =>
    if c ∈ SINGLE_OPS then (advance lx, some ⟨CODE ⟨[c]⟩, ⟨[c]⟩, "-", sl, sc⟩)
    else (lx, none)
  | [] => (lx, none)

/-- Two-then-one-character stage of `_scan_op`. -/
def opTwoOrOne (sl sc : Nat) (lx : Lexer) : Lexer × Option Token :=
  match lx.rest with
  | c1 :: c2 :: _ =>
    if (⟨[c1, c2]⟩ : String) ∈ DOUBLE_OPS then
      (advance (advance lx), some ⟨CODE ⟨[c1, c2]⟩, ⟨[c1, c2]⟩, "-", sl, sc⟩)
    else opOne sl sc lx
  | _ => opOne sl sc lx

/-- `_scan_op`: maximal-munch operator scan — three characters, then two,
then one. -/
def _scan_op (lx : Lexer) : Lexer × Option Token :=
  let sl := lx.line
  let sc := lx.col
  match lx.rest with
  | c1 :: c2 :: c3 :: _ =>
    if (⟨[c1, c2, c3]⟩ : String) ∈ TRIPLE_OPS then
      (advance (advance (advance lx)), some ⟨CODE ⟨[c1, c2, c3]⟩, ⟨[c1, c2, c3]⟩, "-", sl, sc⟩)
    else opTwoOrOne sl sc lx
  | _ => opTwoOrOne sl sc lx

/-- `_scan_delim`: single-character delimiter scan. -/
def _scan_delim (lx : Lexer) : Lexer × Option Token :=
  let sl := lx.line
  let sc := lx.col
  match lx.rest with
  | c :: _ =>
    if c ∈ DELIMITERS then (advance lx, some ⟨CODE ⟨[c]⟩, ⟨[c]⟩, "-", sl, sc⟩)
    else (lx, none)
  | [] => (lx, none)

/-- Append an optional token produced by a sub-scan (`if tok:
self.tokens.append(tok)`). -/
def pushTok (lx : Lexer) : Option Token → Lexer
  | none => lx
  | some t => { lx with tokens := lx.tokens ++ [t] }

/-- `ch + (self._peek() or '')`: the two-character window used by the
operator dispatch test. -/
def peekStr (ch : Char) (cs : List Char) : String :=
  match cs with
  | c2 :: _ => ⟨[ch, c2]⟩
  | [] => ⟨[ch]⟩

/-- The driver loop of `tokenize`, with explicit fuel (always sufficient, see
`tokenizeLoop_adequate`).  Results: `none` = fuel exhausted (never happens),
`some none` = a Python exception escaped (`TypeError` from `_skip_ws` or
`ValueError` from an octal escape), `some (some lx)` = normal return.
The dead number prescan of the digit branch (`has_letter`/`is_hex`/`is_exp`,
which flows into `pass`) is omitted: it reads state but changes nothing. -/
def tokenizeLoop : Nat → Lexer → Option (Option Lexer)
  | 0, _ => none
  | fuel + 1, lx =>
    if lx.rest.isEmpty then some (some lx)
    else
      match _skip_ws lx with
      | none => some none
      | some lx1 =>
        if lx1.rest.isEmpty then some (some lx1)
        else
          match _skip_comment lx1 with
          | (lx2, true) => tokenizeLoop fuel lx2
          | (lx2, false) =>
            match lx2.rest with
            | [] => tokenizeLoop fuel lx2
            | ch :: cs =>
              if ch.isAlpha || ch = '_' then
                match _scan_id lx2 with
                | (lx3, t) => tokenizeLoop fuel { lx3 with tokens := lx3.tokens ++ [t] }
              else if ch.isDigit then
                match _scan_num lx2 with
                | (lx3, t) => tokenizeLoop fuel (pushTok lx3 t)
              else if ch = '.' && (match cs with | d :: _ => d.isDigit | [] => false) then
                match _scan_leading_dot_number lx2 with
                | (lx3, t) => tokenizeLoop fuel (pushTok lx3 t)
              else if ch = '\x27' then
                match _scan_char lx2 with
                | none => some none
                | some (lx3, t) => tokenizeLoop fuel (pushTok lx3 t)
              else if ch = '"' then
                match _scan_string lx2 with
                | none => some none
                | some (lx3, t) => tokenizeLoop fuel (pushTok lx3 t)
              else if ch ∈ SINGLE_OPS || peekStr ch cs ∈ DOUBLE_OPS then
                if ch = '/' && (match cs with | c2 :: _ => c2 = '/' || c2 = '*' | [] => false) then
                  tokenizeLoop fuel lx2
                else
                  match _scan_op lx2 with
                  | (lx3, t) => tokenizeLoop fuel (pushTok lx3 t)
              else if ch ∈ DELIMITERS then
                match _scan_delim lx2 with
                | (lx3, t) =>
                  let lx4 := pushTok lx3 t
                  if ch = '#' then some (some lx4) else tokenizeLoop fuel lx4
              else
                tokenizeLoop fuel
                  (advance { lx2 with errors := lx2.errors ++ [⟨"ILLEGAL_CHAR", lx2.line, lx2.col, ⟨[ch]⟩, ""⟩] })

/-- Fresh scanner state for a source text (the `Lexer.__init__` fields). -/
def initLexer (src : String) : Lexer := ⟨src.data, 1, 1, [], [], [], []⟩

/-- `tokenize` on a whole source text.  `some (some lx)` is a normal return
carrying `lx.tokens` and `lx.errors`; `some none` is an escaped Python
exception; the fuel `length + 1` never runs out (`tokenizeLoop_adequate`). -/
def tokenize (src : String) : Option (Option Lexer) :=
  tokenizeLoop (src.data.length + 1) (initLexer src)

/-- "The comment is never closed": no `*/` occurs in the remaining input.
This is the condition under which the `while` of `_skip_comment` falls off
the end of the input. -/
def noClose : List Char → Bool
  | [] => true
  | '*' :: '/' :: _ => false
  | _ :: cs => noClose cs

/-! ### Table lemmas -/

theorem indexOfL_append_self (tbl : List String) (x : String) (h : x ∉ tbl) :
    indexOfL (tbl ++ [x]) x = tbl.length := by
  induction tbl with
  | nil => simp [indexOfL]
  | cons y ys ih =>
    simp only [List.mem_cons, not_or] at h
    have := ih h.2
    simp only [List.cons_append, indexOfL, List.length_cons, List.append_eq] at this ⊢
    rw [if_neg (fun hyx => h.1 hyx.symm)]
    omega

theorem indexOfL_get (tbl : List String) (x : String) (h : x ∈ tbl) :
    tbl[indexOfL tbl x]? = some x := by
  induction tbl with
  | nil => simp at h
  | cons y ys ih =>
    by_cases hxy : y = x
    · simp [indexOfL, hxy]
    · have hm : x ∈ ys := by
        rcases List.mem_cons.1 h with h1 | h1
        · exact absurd h1.symm hxy
        · exact h1
      simp [indexOfL, hxy, ih hm]

theorem indexOfL_first (tbl : List String) (x : String) (j : Nat)
    (hj : j < indexOfL tbl x) : tbl[j]? ≠ some x := by
  induction tbl generalizing j with
  | nil => simp
  | cons y ys ih =>
    simp only [indexOfL] at hj
    by_cases hxy : y = x
    · rw [if_pos hxy] at hj; omega
    · rw [if_neg hxy] at hj
      match j with
      | 0 => simpa using fun hc => hxy hc
      | j + 1 =>
        simpa using ih j (by omega)

theorem lookupOrInsert_mem (tbl : List String) (x : String) (h : x ∈ tbl) :
    lookupOrInsert tbl x = (tbl, indexOfL tbl x) := by
  simp [lookupOrInsert, h]

theorem lookupOrInsert_not_mem (tbl : List String) (x : String) (h : x ∉ tbl) :
    lookupOrInsert tbl x = (tbl ++ [x], tbl.length) := by
  simp [lookupOrInsert, h, indexOfL_append_self tbl x h]

theorem mem_lookupOrInsert (tbl : List String) (x : String) :
    x ∈ (lookupOrInsert tbl x).1 := by
  by_cases h : x ∈ tbl
  · rw [lookupOrInsert_mem tbl x h]; exact h
  · rw [lookupOrInsert_not_mem tbl x h]; simp

theorem lookupOrInsert_idem (tbl : List String) (x : String) :
    lookupOrInsert (lookupOrInsert tbl x).1 x = lookupOrInsert tbl x := by
  by_cases h : x ∈ tbl
  · rw [lookupOrInsert_mem tbl x h, lookupOrInsert_mem tbl x h]
  · rw [lookupOrInsert_not_mem tbl x h,
        lookupOrInsert_mem (tbl ++ [x]) x (by simp),
        indexOfL_append_self tbl x h]

theorem lookupOrInsert_nodup (tbl : List String) (x : String) (h : tbl.Nodup) :
    (lookupOrInsert tbl x).1.Nodup := by
  by_cases hm : x ∈ tbl
  · rw [lookupOrInsert_mem tbl x hm]; exact h
  · rw [lookupOrInsert_not_mem tbl x hm]
    simpa [List.nodup_append] using ⟨h, hm⟩

theorem lookupOrInsert_get (tbl : List String) (x : String) :
    (lookupOrInsert tbl x).1[(lookupOrInsert tbl x).2]? = some x := by
  by_cases h : x ∈ tbl
  · rw [lookupOrInsert_mem tbl x h]; exact indexOfL_get tbl x h
  · rw [lookupOrInsert_not_mem tbl x h]; simp

theorem lookupOrInsert_first (tbl : List String) (x : String) (j : Nat)
    (hj : j < (lookupOrInsert tbl x).2) : (lookupOrInsert tbl x).1[j]? ≠ some x := by
  by_cases h : x ∈ tbl
  · rw [lookupOrInsert_mem tbl x h] at hj ⊢
    exact indexOfL_first tbl x j hj
  · rw [lookupOrInsert_not_mem tbl x h] at hj ⊢
    exact indexOfL_first (tbl ++ [x]) x j
      (by rw [indexOfL_append_self tbl x h]; exact hj)

/-! ### Frame lemmas and table invariants -/

theorem _add_sym_eq (lx : Lexer) (s : String) :
    _add_sym lx s = ({ lx with sym_table := (lookupOrInsert lx.sym_table s).1 },
                     (lookupOrInsert lx.sym_table s).2) := rfl

theorem _add_const_eq (lx : Lexer) (v : String) :
    _add_const lx v = ({ lx with const_table := (lookupOrInsert lx.const_table v).1 },
                       (lookupOrInsert lx.const_table v).2) := rfl

@[simp] theorem advance_tokens (lx : Lexer) : (advance lx).tokens = lx.tokens := by
  unfold advance; split <;> rfl

@[simp] theorem advance_errors (lx : Lexer) : (advance lx).errors = lx.errors := by
  unfold advance; split <;> rfl

@[simp] theorem advance_sym_table (lx : Lexer) : (advance lx).sym_table = lx.sym_table := by
  unfold advance; split <;> rfl

@[simp] theorem advance_const_table (lx : Lexer) : (advance lx).const_table = lx.const_table := by
  unfold advance; split <;> rfl

/-- Both tables are duplicate-free. -/
def TablesOk (lx : Lexer) : Prop := lx.sym_table.Nodup ∧ lx.const_table.Nodup

theorem advance_tablesOk (lx : Lexer) (h : TablesOk lx) : TablesOk (advance lx) := by
  unfold TablesOk at *; simp [h.1, h.2]

theorem _skip_ws_tablesOk (lx lx1 : Lexer) (h : _skip_ws lx = some lx1) (hok : TablesOk lx) :
    TablesOk lx1 := by
  unfold _skip_ws at h
  split at h
  · exact absurd h (by simp)
  · simp only [Option.some.injEq] at h
    subst h
    exact hok

theorem _skip_comment_tablesOk (lx : Lexer) (hok : TablesOk lx) :
    TablesOk (_skip_comment lx).1 := by
  unfold _skip_comment
  split
  · split
    exact hok
  · split
    exact hok
  · exact hok

theorem _scan_id_tablesOk (lx : Lexer) (hok : TablesOk lx) : TablesOk (_scan_id lx).1 := by
  unfold _scan_id
  split
  dsimp only
  split
  · exact hok
  · rw [_add_sym_eq]
    exact ⟨lookupOrInsert_nodup _ _ hok.1, hok.2⟩

theorem finishOct_tablesOk (val : List Char) (sl sc : Nat) (lx : Lexer) (hok : TablesOk lx) :
    TablesOk (finishOct val sl sc lx).1 := by
  unfold finishOct
  repeat' (first | (simp only [_add_const_eq, _add_sym_eq]) | dsimp only | split)
  all_goals first
    | exact hok
    | exact ⟨hok.1, lookupOrInsert_nodup _ _ hok.2⟩

theorem finishNum_tablesOk (val : List Char) (hd he : Bool) (sl sc : Nat) (lx : Lexer)
    (hok : TablesOk lx) : TablesOk (finishNum val hd he sl sc lx).1 := by
  unfold finishNum
  repeat' (first | (simp only [_add_const_eq, _add_sym_eq]) | dsimp only | split)
  all_goals first
    | exact hok
    | exact ⟨hok.1, lookupOrInsert_nodup _ _ hok.2⟩

theorem decimalSuffix_tablesOk (val : List Char) (hd he : Bool) (sl sc : Nat) (lx : Lexer)
    (hok : TablesOk lx) : TablesOk (decimalSuffix val hd he sl sc lx).1 := by
  unfold decimalSuffix
  repeat' (first | dsimp only | split)
  all_goals first
    | exact hok
    | exact finishNum_tablesOk _ _ _ _ _ _ hok

theorem decimalAfterDot_tablesOk (val : List Char) (hd : Bool) (sl sc : Nat) (lx : Lexer)
    (hok : TablesOk lx) : TablesOk (decimalAfterDot val hd sl sc lx).1 := by
  unfold decimalAfterDot
  repeat' (first | dsimp only | split)
  all_goals first
    | exact hok
    | exact decimalSuffix_tablesOk _ _ _ _ _ _ hok

theorem _scan_decimal_part_tablesOk (ip : List Char) (sl sc : Nat) (lx : Lexer)
    (hok : TablesOk lx) : TablesOk (_scan_decimal_part ip sl sc lx).1 := by
  unfold _scan_decimal_part
  repeat' (first | (simp only [_add_const_eq, _add_sym_eq]) | dsimp only | split)
  all_goals first
    | exact hok
    | exact ⟨hok.1, lookupOrInsert_nodup _ _ hok.2⟩
    | exact decimalAfterDot_tablesOk _ _ _ _ _ hok

theorem _scan_decimal_tablesOk (sl sc : Nat) (lx : Lexer) (hok : TablesOk lx) :
    TablesOk (_scan_decimal sl sc lx).1 := by
  unfold _scan_decimal
  repeat' (first | dsimp only | split)
  all_goals exact _scan_decimal_part_tablesOk _ _ _ _ hok

theorem _scan_octal_tablesOk (sl sc : Nat) (lx : Lexer) (hok : TablesOk lx) :
    TablesOk (_scan_octal sl sc lx).1 := by
  unfold _scan_octal
  repeat' (first | dsimp only | split)
  all_goals first
    | exact hok
    | exact _scan_decimal_part_tablesOk _ _ _ _ hok
    | exact finishOct_tablesOk _ _ _ _ hok

theorem _scan_hex_tablesOk (sl sc : Nat) (lx : Lexer) (hok : TablesOk lx) :
    TablesOk (_scan_hex sl sc lx).1 := by
  unfold _scan_hex
  repeat' (first | (simp only [_add_const_eq, _add_sym_eq]) | dsimp only | split)
  all_goals first
    | exact hok
    | exact ⟨hok.1, lookupOrInsert_nodup _ _ hok.2⟩

theorem _scan_num_tablesOk (lx : Lexer) (hok : TablesOk lx) :
    TablesOk (_scan_num lx).1 := by
  unfold _scan_num
  repeat' (first | dsimp only | split)
  all_goals first
    | exact _scan_hex_tablesOk _ _ _ hok
    | exact _scan_octal_tablesOk _ _ _ hok
    | exact _scan_decimal_tablesOk _ _ _ hok

theorem _scan_leading_dot_number_tablesOk (lx : Lexer) (hok : TablesOk lx) :
    TablesOk (_scan_leading_dot_number lx).1 := by
  unfold _scan_leading_dot_number
  repeat' (first | dsimp only | split)
  all_goals first
    | exact hok
    | exact _scan_decimal_part_tablesOk _ _ _ _ hok

theorem charTail_tablesOk (sl sc : Nat) (dv : List Char) (lx : Lexer) (hok : TablesOk lx) :
    TablesOk (charTail sl sc dv lx).1 := by
  unfold charTail
  repeat' (first | (simp only [_add_const_eq, _add_sym_eq]) | dsimp only | split)
  all_goals first
    | exact hok
    | exact ⟨hok.1, lookupOrInsert_nodup _ _ hok.2⟩

theorem charXFail_tablesOk (sl sc : Nat) (dv : List Char) (lx : Lexer) (hok : TablesOk lx) :
    TablesOk (charXFail sl sc dv lx).1 := by
  unfold charXFail
  repeat' (first | dsimp only | split)
  all_goals first
    | exact hok
    | exact advance_tablesOk _ hok

theorem _scan_char_tablesOk (lx : Lexer) (res : Lexer × Option Token)
    (h : _scan_char lx = some res) (hok : TablesOk lx) : TablesOk res.1 := by
  unfold _scan_char at h
  have hadv : TablesOk (advance lx) := advance_tablesOk _ hok
  have hadv3 : TablesOk (advance (advance (advance lx))) :=
    advance_tablesOk _ (advance_tablesOk _ hadv)
  repeat' (first | dsimp only at h | split at h)
  all_goals first
    | exact Option.noConfusion h
    | (injection h with h)
  all_goals subst h
  all_goals first
    | exact hadv
    | exact advance_tablesOk _ hadv
    | exact ⟨hadv3.1, hadv3.2⟩
    | exact charTail_tablesOk _ _ _ _ hadv
    | exact charTail_tablesOk _ _ _ _ (advance_tablesOk _ hadv)
    | exact charTail_tablesOk _ _ _ _ ⟨hadv3.1, hadv3.2⟩
    | exact charXFail_tablesOk _ _ _ _ ⟨hadv3.1, hadv3.2⟩

theorem _scan_string_tablesOk (lx : Lexer) (res : Lexer × Option Token)
    (h : _scan_string lx = some res) (hok : TablesOk lx) : TablesOk res.1 := by
  unfold _scan_string at h
  have hadv : TablesOk (advance lx) := advance_tablesOk _ hok
  repeat' (first | (simp only [_add_const_eq] at h) | dsimp only at h | split at h)
  all_goals first
    | exact Option.noConfusion h
    | (injection h with h)
  all_goals subst h
  all_goals first
    | exact ⟨hadv.1, hadv.2⟩
    | exact ⟨hadv.1, lookupOrInsert_nodup _ _ hadv.2⟩

theorem opOne_tablesOk (sl sc : Nat) (lx : Lexer) (hok : TablesOk lx) :
    TablesOk (opOne sl sc lx).1 := by
  unfold opOne
  repeat' (first | dsimp only | split)
  all_goals first
    | exact hok
    | exact advance_tablesOk _ hok

theorem opTwoOrOne_tablesOk (sl sc : Nat) (lx : Lexer) (hok : TablesOk lx) :
    TablesOk (opTwoOrOne sl sc lx).1 := by
  unfold opTwoOrOne
  repeat' (first | dsimp only | split)
  all_goals first
    | exact hok
    | exact advance_tablesOk _ (advance_tablesOk _ hok)
    | exact opOne_tablesOk _ _ _ hok

theorem _scan_op_tablesOk (lx : Lexer) (hok : TablesOk lx) :
    TablesOk (_scan_op lx).1 := by
  unfold _scan_op
  repeat' (first | dsimp only | split)
  all_goals first
    | exact hok
    | exact advance_tablesOk _ (advance_tablesOk _ (advance_tablesOk _ hok))
    | exact opTwoOrOne_tablesOk _ _ _ hok

theorem _scan_delim_tablesOk (lx : Lexer) (hok : TablesOk lx) :
    TablesOk (_scan_delim lx).1 := by
  unfold _scan_delim
  repeat' (first | dsimp only | split)
  all_goals first
    | exact hok
    | exact advance_tablesOk _ hok

theorem pushTok_tablesOk (lx : Lexer) (t : Option Token) (hok : TablesOk lx) :
    TablesOk (pushTok lx t) := by
  unfold pushTok
  split
  · exact hok
  · exact hok

set_option maxHeartbeats 4000000 in
/-- Through the whole driver loop, the two tables stay duplicate-free: every
mutation goes through the lookup-or-insert helpers. -/
theorem tokenizeLoop_tablesOk (fuel : Nat) :
    ∀ (lx lxf : Lexer), tokenizeLoop fuel lx = some (some lxf) → TablesOk lx →
      TablesOk lxf := by
  induction fuel with
  | zero => intro lx lxf h _; exact Option.noConfusion h
  | succ fuel ih =>
    intro lx lxf h hok
    unfold tokenizeLoop at h
    split at h
    · injection h with h; injection h with h; subst h; exact hok
    · split at h
      · injection h with h; exact Option.noConfusion h
      · rename_i lx1 hws
        split at h
        · injection h with h; injection h with h; subst h
          exact _skip_ws_tablesOk _ _ hws hok
        · have hok1 : TablesOk lx1 := _skip_ws_tablesOk _ _ hws hok
          split at h
          · exact ih _ _ h (by
              rename_i heq
              have := _skip_comment_tablesOk lx1 hok1
              rw [heq] at this
              exact this)
          · rename_i _x lx2 heq2
            have hok2 : TablesOk lx2 := by
              have := _skip_comment_tablesOk lx1 hok1
              rw [heq2] at this
              exact this
            split at h
            · exact ih _ _ h hok2
            · split at h
              · split at h
                rename_i hid
                exact ih _ _ h (by
                  have := _scan_id_tablesOk lx2 hok2
                  rw [hid] at this
                  exact ⟨this.1, this.2⟩)
              · split at h
                · split at h
                  rename_i hnum
                  exact ih _ _ h (by
                    have := _scan_num_tablesOk lx2 hok2
                    rw [hnum] at this
                    exact pushTok_tablesOk _ _ this)
                · split at h
                  · split at h
                    rename_i hld
                    exact ih _ _ h (by
                      have := _scan_leading_dot_number_tablesOk lx2 hok2
                      rw [hld] at this
                      exact pushTok_tablesOk _ _ this)
                  · split at h
                    · split at h
                      · injection h with h; exact Option.noConfusion h
                      · rename_i hch
                        exact ih _ _ h
                          (pushTok_tablesOk _ _ (_scan_char_tablesOk lx2 _ hch hok2))
                    · split at h
                      · split at h
                        · injection h with h; exact Option.noConfusion h
                        · rename_i hst
                          exact ih _ _ h
                            (pushTok_tablesOk _ _ (_scan_string_tablesOk lx2 _ hst hok2))
                      · split at h
                        · split at h
                          · exact ih _ _ h hok2
                          · split at h
                            rename_i hop
                            exact ih _ _ h (by
                              have := _scan_op_tablesOk lx2 hok2
                              rw [hop] at this
                              exact pushTok_tablesOk _ _ this)
                        · split at h
                          · split at h
                            rename_i hdl
                            split at h
                            · injection h with h; injection h with h; subst h
                              exact pushTok_tablesOk _ _ (by
                                have := _scan_delim_tablesOk lx2 hok2
                                rw [hdl] at this
                                exact this)
                            · exact ih _ _ h (pushTok_tablesOk _ _ (by
                                have := _scan_delim_tablesOk lx2 hok2
                                rw [hdl] at this
                                exact this))
                          · exact ih _ _ h (advance_tablesOk _ ⟨hok2.1, hok2.2⟩)

/-! ### Consumption bounds: no loop ever moves the cursor backwards. -/

theorem skipWsL_len (cs : List Char) : ∀ l c r l2 c2,
    skipWsL cs l c = some (r, l2, c2) → r.length ≤ cs.length ∧ r ≠ [] := by
  induction cs with
  | nil => intro l c r l2 c2 h; exact absurd h (by simp [skipWsL])
  | cons x xs ih =>
    intro l c r l2 c2 h
    simp only [skipWsL] at h
    split at h
    · have := ih _ _ _ _ _ h
      exact ⟨by simpa using Nat.le_succ_of_le this.1, this.2⟩
    · injection h with h
      injection h with h1 h2
      subst h1
      simp

theorem skipToEolL_len (cs : List Char) : ∀ l c, (skipToEolL cs l c).1.length ≤ cs.length := by
  induction cs with
  | nil => intro l c; simp [skipToEolL]
  | cons x xs ih =>
    intro l c
    simp only [skipToEolL]
    split
    · simp
    · have := ih (nextLine x l) (nextCol x c)
      simpa using Nat.le_succ_of_le this

theorem blockLoopL_len (cs : List Char) : ∀ l c sl sc es,
    (blockLoopL cs l c sl sc es).1.length ≤ cs.length := by
  intro l c sl sc es
  induction cs, l, c, sl, sc, es using blockLoopL.induct with
  | case1 => simp [blockLoopL]
  | case2 => simp [blockLoopL]; omega
  | case3 x xs l c sl sc es hne ih =>
    simp [blockLoopL]
    omega

theorem idLoopL_len (cs : List Char) : ∀ l c, (idLoopL cs l c).1.length ≤ cs.length := by
  intro l c
  induction cs, l, c using idLoopL.induct <;> simp_all [idLoopL] <;> omega

theorem digitLoopL_len (cs : List Char) : ∀ l c, (digitLoopL cs l c).1.length ≤ cs.length := by
  intro l c
  induction cs, l, c using digitLoopL.induct <;> simp_all [digitLoopL] <;> omega

theorem hexDigLoopL_len (cs : List Char) : ∀ l c, (hexDigLoopL cs l c).1.length ≤ cs.length := by
  intro l c
  induction cs, l, c using hexDigLoopL.induct <;> simp_all [hexDigLoopL] <;> omega

theorem dotRunLoopL_len (cs : List Char) : ∀ l c, (dotRunLoopL cs l c).1.length ≤ cs.length := by
  intro l c
  induction cs, l, c using dotRunLoopL.induct <;> simp_all [dotRunLoopL] <;> omega

theorem extraLoopL_len (cs : List Char) : ∀ l c, (extraLoopL cs l c).1.length ≤ cs.length := by
  intro l c
  induction cs, l, c using extraLoopL.induct <;> simp_all [extraLoopL] <;> omega

theorem skipQNlL_len (cs : List Char) : ∀ l c, (skipQNlL cs l c).1.length ≤ cs.length := by
  intro l c
  induction cs, l, c using skipQNlL.induct <;> simp_all [skipQNlL] <;> omega

theorem octLoopL_len (cs : List Char) : ∀ l c, (octLoopL cs l c).1.length ≤ cs.length := by
  intro l c
  induction cs, l, c using octLoopL.induct with
  | case1 => simp [octLoopL]
  | case2 c0 cs0 l0 co0 hdig h89 r l2 co2 run heq =>
    have hlen := digitLoopL_len (c0 :: cs0) l0 co0
    rw [heq] at hlen
    simp only [octLoopL, hdig, h89, if_true, heq]
    simpa using hlen
  | case3 =>
    simp_all [octLoopL]
    omega
  | case4 =>
    simp_all [octLoopL]

theorem upTo2_append (p : Char → Bool) (cs : List Char) :
    (upTo2 p cs).2 ++ (upTo2 p cs).1 = cs := by
  match cs with
  | [] => simp [upTo2]
  | c1 :: cs1 =>
    simp only [upTo2]
    split
    · match cs1 with
      | [] => simp
      | c2 :: cs2 =>
        simp only
        split
        · simp
        · simp
    · simp

set_option maxHeartbeats 4000000 in
/-- The string-literal loop consumes exactly the prefix it accumulates into
`val`, and every error it records is anchored at the literal start
`(sl, sc)`. -/
theorem strLoopL_spec : ∀ (cs : List Char) (l c sl sc : Nat) (es : List LexError),
    ∀ r l2 c2 es2 v ct,
    strLoopL cs l c sl sc es = some (r, l2, c2, es2, v, ct) →
    v ++ r = cs ∧ ∀ e ∈ es2, e ∈ es ∨ (e.line = sl ∧ e.col = sc) := by
  intro cs l c sl sc es
  induction cs, l, c, sl, sc, es using strLoopL.induct
  case case1 line col sl sc errs =>
    intro r l2 c2 es2 v ct h
    simp_all only [strLoopL]
    injection h with h
    simp only [Prod.mk.injEq] at h
    obtain ⟨rfl, rfl, rfl, rfl, rfl, rfl⟩ := h
    exact ⟨by simp, fun e he => Or.inl he⟩
  case case2 c0 cs0 line col sl sc errs hq =>
    intro r l2 c2 es2 v ct h
    rw [strLoopL.eq_def] at h
    simp_all
  case case3 line col sl sc errs hq =>
    intro r l2 c2 es2 v ct h
    rw [strLoopL.eq_def] at h
    simp_all
  case case4 line col sl sc errs cs2 hq =>
    intro r l2 c2 es2 v ct h
    rw [strLoopL.eq_def] at h
    simp_all
    obtain ⟨rfl, rfl, rfl, rfl, h5, h6⟩ := h
    subst h5
    subst h6
    rfl
  case case5 line col sl sc errs cs2 t hTE hq hxnl l2v c2v hrec ih =>
    intro r l2 c2 es2 v ct h
    rw [strLoopL.eq_def] at h
    simp_all
  case case6 line col sl sc errs cs2 t hTE r0 l0 co0 es0 v0 ct0 hq hxnl l2v c2v hrec ih =>
    intro r l2 c2 es2 v ct h
    simp_all only [strLoopL]
    injection h with h
    simp only [Prod.mk.injEq] at h
    obtain ⟨rfl, rfl, rfl, rfl, rfl, rfl⟩ := h
    obtain ⟨hv, herr⟩ := ih _ _ _ _ _ _ rfl
    constructor
    · have hTE2 : (upTo2 isHexChar cs2).2 = [] := by simpa using hTE
      have ha := upTo2_append isHexChar cs2
      rw [hTE2, List.nil_append] at ha
      have ha2 : t.1 = cs2 := ha
      simp [List.cons_append, hv, ha2]
    · intro e he
      rcases herr e he with hm | ha
      · simp only [List.mem_append, List.mem_singleton] at hm
        rcases hm with hm | rfl
        · exact Or.inl hm
        · exact Or.inr ⟨rfl, rfl⟩
      · exact Or.inr ha
  case case7 line col sl sc errs cs2 t hTE hq hxnl l2v c2v hrec ih =>
    intro r l2 c2 es2 v ct h
    rw [strLoopL.eq_def] at h
    simp_all
  case case8 line col sl sc errs cs2 t hTE r0 l0 co0 es0 v0 ct0 hq hxnl l2v c2v hrec ih =>
    intro r l2 c2 es2 v ct h
    simp_all only [strLoopL]
    injection h with h
    simp only [Prod.mk.injEq] at h
    obtain ⟨rfl, rfl, rfl, rfl, rfl, rfl⟩ := h
    obtain ⟨hv, herr⟩ := ih _ _ _ _ _ _ rfl
    constructor
    · have ha2 : t.2 ++ t.1 = cs2 := upTo2_append isHexChar cs2
      calc ('\\' :: 'x' :: (t.2 ++ v0)) ++ r0
          = '\\' :: 'x' :: (t.2 ++ (v0 ++ r0)) := by simp [List.append_assoc]
        _ = '\\' :: 'x' :: (t.2 ++ t.1) := by rw [hv]
        _ = '\\' :: 'x' :: cs2 := by rw [ha2]
    · exact herr
  case case9 line col sl sc errs ec cs2 hnl hx ev hesc hq l2v c2v hrec ih =>
    intro r l2 c2 es2 v ct h
    rw [strLoopL.eq_def] at h
    simp_all
  case case10 line col sl sc errs ec cs2 hnl hx ev hesc r0 l0 co0 es0 v0 ct0 hq l2v c2v hrec ih =>
    intro r l2 c2 es2 v ct h
    simp_all only [strLoopL]
    injection h with h
    simp only [Prod.mk.injEq] at h
    obtain ⟨rfl, rfl, rfl, rfl, rfl, rfl⟩ := h
    obtain ⟨hv, herr⟩ := ih _ _ _ _ _ _ rfl
    exact ⟨by simp [hv], herr⟩
  case case11 line col sl sc errs ec cs2 hnl hx hesc hdig h89 hq =>
    intro r l2 c2 es2 v ct h
    rw [strLoopL.eq_def] at h
    simp_all
  case case12 line col sl sc errs ec cs2 hnl hx hesc hdig h89 t hq l2v c2v hrec ih =>
    intro r l2 c2 es2 v ct h
    rw [strLoopL.eq_def] at h
    simp_all
  case case13 line col sl sc errs ec cs2 hnl hx hesc hdig h89 t r0 l0 co0 es0 v0 ct0 hq l2v c2v hrec ih =>
    intro r l2 c2 es2 v ct h
    simp_all only [strLoopL]
    injection h with h
    simp only [Prod.mk.injEq] at h
    obtain ⟨rfl, rfl, rfl, rfl, rfl, rfl⟩ := h
    obtain ⟨hv, herr⟩ := ih _ _ _ _ _ _ rfl
    constructor
    · have ha2 : t.2 ++ t.1 = cs2 := upTo2_append isOctChar cs2
      calc ('\\' :: ec :: (t.2 ++ v0)) ++ r0
          = '\\' :: ec :: (t.2 ++ (v0 ++ r0)) := by simp [List.append_assoc]
        _ = '\\' :: ec :: (t.2 ++ t.1) := by rw [hv]
        _ = '\\' :: ec :: cs2 := by rw [ha2]
    · exact herr
  case case14 line col sl sc errs ec cs2 hnl hx hesc hdig hq l2v c2v hrec ih =>
    intro r l2 c2 es2 v ct h
    rw [strLoopL.eq_def] at h
    simp_all
  case case15 line col sl sc errs ec cs2 hnl hx hesc hdig r0 l0 co0 es0 v0 ct0 hq l2v c2v hrec ih =>
    intro r l2 c2 es2 v ct h
    simp_all only [strLoopL]
    injection h with h
    simp only [Prod.mk.injEq] at h
    obtain ⟨rfl, rfl, rfl, rfl, rfl, rfl⟩ := h
    obtain ⟨hv, herr⟩ := ih _ _ _ _ _ _ rfl
    constructor
    · simp [hv]
    · intro e he
      rcases herr e he with hm | ha
      · simp only [List.mem_append, List.mem_singleton] at hm
        rcases hm with hm | rfl
        · exact Or.inl hm
        · exact Or.inr ⟨rfl, rfl⟩
      · exact Or.inr ha
  case case16 c0 cs0 line col sl sc errs hq hbs hrec ih =>
    intro r l2 c2 es2 v ct h
    rw [strLoopL.eq_def] at h
    simp_all
  case case17 c0 cs0 line col sl sc errs hq hbs r0 l0 co0 es0 v0 ct0 hrec ih =>
    intro r l2 c2 es2 v ct h
    rw [strLoopL.eq_def] at h
    simp only [hq, hbs, hrec, reduceIte, if_false] at h
    injection h with h
    simp only [Prod.mk.injEq] at h
    obtain ⟨rfl, rfl, rfl, rfl, rfl, rfl⟩ := h
    obtain ⟨hv, herr⟩ := ih _ _ _ _ _ _ hrec
    exact ⟨by simp [hv], herr⟩

theorem idLoopL_cons (c : Char) (cs : List Char) (l co : Nat) (hc : isIdChar c = true) :
    (idLoopL (c :: cs) l co).1.length ≤ cs.length := by
  simp only [idLoopL, hc, if_true]
  exact idLoopL_len cs (nextLine c l) (nextCol c co)

theorem digitLoopL_cons (c : Char) (cs : List Char) (l co : Nat) (hc : c.isDigit = true) :
    (digitLoopL (c :: cs) l co).1.length ≤ cs.length := by
  simp only [digitLoopL, hc, if_true]
  exact digitLoopL_len cs (nextLine c l) (nextCol c co)

theorem finishOct_rest (val : List Char) (sl sc : Nat) (lx : Lexer) :
    (finishOct val sl sc lx).1.rest = lx.rest := by
  unfold finishOct
  rw [_add_const_eq]

theorem finishNum_rest (val : List Char) (hd he : Bool) (sl sc : Nat) (lx : Lexer) :
    (finishNum val hd he sl sc lx).1.rest = lx.rest := by
  unfold finishNum
  split
  · rfl
  · rw [_add_const_eq]

theorem decimalSuffix_len (val : List Char) (hd he : Bool) (sl sc : Nat) (lx : Lexer) :
    (decimalSuffix val hd he sl sc lx).1.rest.length ≤ lx.rest.length := by
  unfold decimalSuffix
  split
  · rename_i c cs heq
    split
    · split
      rename_i r l2 c2 run heq2
      have := idLoopL_len lx.rest lx.line lx.col
      rw [heq2] at this
      simpa using this
    · rw [finishNum_rest]
  · rw [finishNum_rest]

theorem decimalAfterDot_len (val : List Char) (hd : Bool) (sl sc : Nat) (lx : Lexer) :
    (decimalAfterDot val hd sl sc lx).1.rest.length ≤ lx.rest.length := by
  obtain ⟨rest, line, col, tks, ers, st, ctb⟩ := lx
  match rest with
  | [] => exact decimalSuffix_len _ _ _ _ _ _
  | e :: cs =>
    simp only [decimalAfterDot]
    by_cases he : e.toLower = 'e'
    · rw [if_pos he]
      match cs with
      | [] => simp
      | s :: cs2 =>
        dsimp only
        by_cases hs : (s = '+' || s = '-') = true
        · rw [if_pos hs]
          by_cases hemp : (digitLoopL cs2 (nextLine s (nextLine e line))
              (nextCol s (nextCol e col))).2.2.2.isEmpty = true
          · rw [if_pos hemp]
            have hd2 := digitLoopL_len cs2 (nextLine s (nextLine e line))
              (nextCol s (nextCol e col))
            simp only [List.length_cons]
            omega
          · rw [if_neg hemp]
            refine le_trans (decimalSuffix_len _ _ _ _ _ _) ?_
            dsimp only
            have hd2 := digitLoopL_len cs2 (nextLine s (nextLine e line))
              (nextCol s (nextCol e col))
            simp only [List.length_cons]
            omega
        · rw [if_neg hs]
          by_cases hemp : (digitLoopL (s :: cs2) (nextLine e line)
              (nextCol e col)).2.2.2.isEmpty = true
          · rw [if_pos hemp]
            have hd2 := digitLoopL_len (s :: cs2) (nextLine e line) (nextCol e col)
            simp only [List.length_cons] at hd2 ⊢
            omega
          · rw [if_neg hemp]
            refine le_trans (decimalSuffix_len _ _ _ _ _ _) ?_
            dsimp only
            have hd2 := digitLoopL_len (s :: cs2) (nextLine e line) (nextCol e col)
            simp only [List.length_cons] at hd2 ⊢
            omega
    · rw [if_neg he]
      exact decimalSuffix_len _ _ _ _ _ _

theorem _scan_decimal_part_len (ip : List Char) (sl sc : Nat) (lx : Lexer) :
    (_scan_decimal_part ip sl sc lx).1.rest.length ≤ lx.rest.length := by
  unfold _scan_decimal_part
  split
  · split
    · rfl
    · simp [_add_const_eq]
  · rename_i cs0 _hne heq
    split
    rename_i r l2 c2 frac heq2
    have hfr := digitLoopL_len cs0 (nextLine '.' lx.line) (nextCol '.' lx.col)
    rw [heq2] at hfr
    simp only at hfr
    split
    · simp [heq]
      omega
    · split
      · rename_i r0 tl
        split
        rename_i r2 l3 c3 extra heq3
        have hex := dotRunLoopL_len ('.' :: tl) l2 c2
        rw [heq3] at hex
        simp only at hex
        simp [heq]
        omega
      · refine le_trans (decimalAfterDot_len _ _ _ _ _) ?_
        dsimp only
        simp [heq]
        omega
  · exact decimalAfterDot_len _ _ _ _ _

theorem _scan_decimal_lt (sl sc : Nat) (lx : Lexer) (c : Char) (cs : List Char)
    (heq : lx.rest = c :: cs) (hc : c.isDigit = true) :
    (_scan_decimal sl sc lx).1.rest.length < lx.rest.length := by
  unfold _scan_decimal
  split
  rename_i r l2 c2 run heq2
  rw [heq] at heq2
  have hr := digitLoopL_cons c cs lx.line lx.col hc
  rw [heq2] at hr
  simp only at hr
  refine Nat.lt_of_le_of_lt (_scan_decimal_part_len _ _ _ _) ?_
  dsimp only
  rw [heq]
  simp
  omega

theorem _scan_octal_lt (sl sc : Nat) (lx : Lexer) (c : Char) (cs : List Char)
    (heq : lx.rest = c :: cs) :
    (_scan_octal sl sc lx).1.rest.length < lx.rest.length := by
  unfold _scan_octal
  rw [heq]
  dsimp only
  have hr := octLoopL_len cs (nextLine c lx.line) (nextCol c lx.col)
  split
  · simp
    omega
  · split
    · split
      · simp only
        refine Nat.lt_of_le_of_lt (idLoopL_len _ _ _) ?_
        simp
        omega
      · split
        · refine Nat.lt_of_le_of_lt (_scan_decimal_part_len _ _ _ _) ?_
          dsimp only
          simp
          omega
        · rw [finishOct_rest]
          dsimp only
          simp
          omega
    · rw [finishOct_rest]
      dsimp only
      simp
      omega

theorem _scan_hex_lt (sl sc : Nat) (lx : Lexer) (c0 c1 : Char) (cs : List Char)
    (heq : lx.rest = c0 :: c1 :: cs) :
    (_scan_hex sl sc lx).1.rest.length < lx.rest.length := by
  unfold _scan_hex
  rw [heq]
  dsimp only
  have hr := hexDigLoopL_len cs (nextLine c1 (nextLine c0 lx.line)) (nextCol c1 (nextCol c0 lx.col))
  split
  · split
    · split
      · simp only
        refine Nat.lt_of_le_of_lt (idLoopL_len _ _ _) ?_
        simp
        omega
      · simp
        omega
    · simp
      omega
  · simp only [_add_const_eq]
    simp
    omega

theorem _scan_num_lt (lx : Lexer) (c : Char) (cs : List Char)
    (heq : lx.rest = c :: cs) (hc : c.isDigit = true) :
    (_scan_num lx).1.rest.length < lx.rest.length := by
  unfold _scan_num
  split
  · rename_i c1 t heq2
    split
    · exact _scan_hex_lt _ _ _ _ _ _ heq2
    · split
      · exact _scan_octal_lt _ _ _ _ _ heq2
      · rw [heq2] at heq
        injection heq with h1 h2
        subst h1
        subst h2
        exact _scan_decimal_lt _ _ _ _ _ heq2 hc
  · exact _scan_decimal_lt _ _ _ _ _ heq hc

theorem _scan_leading_dot_number_lt (lx : Lexer) (d : Char) (t : List Char)
    (heq : lx.rest = '.' :: d :: t) (hd : d.isDigit = true) :
    (_scan_leading_dot_number lx).1.rest.length < lx.rest.length := by
  unfold _scan_leading_dot_number
  rw [heq]
  have hdot : ¬(d = '.') := by
    intro hcon
    rw [hcon] at hd
    simp [Char.isDigit] at hd
  have harm : ∀ tail, d :: t = '.' :: tail → False := by
    intro tail hcon
    injection hcon with hcon1 _
    exact hdot hcon1
  split
  case h_2 =>
    rename_i hm heqc
    exact absurd rfl (heqc d t)
  rename_i d2 tl heqm
  injection heqm with _ heqm2
  injection heqm2 with hd2 ht2
  subst hd2
  subst ht2
  rw [if_pos hd]
  unfold _scan_decimal_part
  rw [heq]
  dsimp only
  split
  · rename_i tl heqc
    exact absurd heqc (by
      intro hcon
      injection hcon with _ hcon2
      exact harm tl hcon2)
  · rename_i heqc
    injection heqc with _ heqc2
    subst heqc2
    have hr := digitLoopL_cons d t (nextLine '.' lx.line) (nextCol '.' lx.col) hd
    split
    · simp
      omega
    · split
      · refine Nat.lt_of_le_of_lt (dotRunLoopL_len _ _ _) ?_
        simp
        omega
      · refine Nat.lt_of_le_of_lt (decimalAfterDot_len _ _ _ _ _) ?_
        dsimp only
        simp
        omega
  · rename_i harm2 heqc
    exact absurd rfl (heqc (d :: t))

theorem advance_rest (lx : Lexer) (c : Char) (cs : List Char) (heq : lx.rest = c :: cs) :
    (advance lx).rest = cs := by
  unfold advance
  rw [heq]

theorem advance_le (lx : Lexer) : (advance lx).rest.length ≤ lx.rest.length := by
  unfold advance
  split
  · exact le_refl _
  · rename_i c cs heq
    rw [heq]
    simp

theorem pushTok_rest (lx : Lexer) (t : Option Token) : (pushTok lx t).rest = lx.rest := by
  cases t <;> rfl

theorem _skip_ws_some (lx lx1 : Lexer) (h : _skip_ws lx = some lx1) :
    lx1.rest.length ≤ lx.rest.length ∧ lx1.rest ≠ [] := by
  unfold _skip_ws at h
  split at h
  · exact Option.noConfusion h
  · rename_i r l c heq
    injection h with h
    subst h
    exact skipWsL_len lx.rest lx.line lx.col r l c heq

theorem skipToEolL_cons (c : Char) (cs : List Char) (l co : Nat) (h : ¬(c = '\n')) :
    (skipToEolL (c :: cs) l co).1.length ≤ cs.length := by
  simp only [skipToEolL]
  rw [if_neg h]
  exact skipToEolL_len cs (nextLine c l) (nextCol c co)

theorem _skip_comment_true_lt (lx lx2 : Lexer) (h : _skip_comment lx = (lx2, true)) :
    lx2.rest.length < lx.rest.length := by
  unfold _skip_comment at h
  split at h
  · rename_i tl heq
    injection h with h1 h2
    subst h1
    dsimp only
    rw [heq]
    refine Nat.lt_of_le_of_lt (skipToEolL_cons _ _ _ _ (by decide)) ?_
    simp
  · rename_i cs3 heq
    injection h with h1 h2
    subst h1
    dsimp only
    rw [heq]
    refine Nat.lt_of_le_of_lt (blockLoopL_len _ _ _ _ _ _) ?_
    simp
    omega
  · injection h with h1 h2
    exact Bool.noConfusion h2

theorem _skip_comment_false_eq (lx lx2 : Lexer) (h : _skip_comment lx = (lx2, false)) :
    lx2 = lx := by
  unfold _skip_comment at h
  split at h
  · injection h with h1 h2
    exact Bool.noConfusion h2
  · injection h with h1 h2
    exact Bool.noConfusion h2
  · injection h with h1 h2
    exact h1.symm

theorem _skip_comment_shape (lx : Lexer) (c2 : Char) (cs : List Char)
    (heq : lx.rest = '/' :: c2 :: cs) (hc : c2 = '/' ∨ c2 = '*') :
    (_skip_comment lx).2 = true := by
  unfold _skip_comment
  rw [heq]
  rcases hc with rfl | rfl
  · split
    · rfl
    · rfl
    · rename_i h1 h2
      exact absurd rfl (h1 cs)
  · split
    · rfl
    · rfl
    · rename_i h1 h2
      exact absurd rfl (h2 cs)

theorem _scan_id_lt (lx : Lexer) (c : Char) (cs : List Char)
    (heq : lx.rest = c :: cs) (hc : (c.isAlpha || c = '_') = true) :
    (_scan_id lx).1.rest.length < lx.rest.length := by
  have hid : isIdChar c = true := by
    simp only [Bool.or_eq_true, decide_eq_true_eq] at hc
    rcases hc with hc | hc
    · simp [isIdChar, Char.isAlphanum, hc]
    · simp [isIdChar, hc]
  unfold _scan_id
  rw [heq]
  dsimp only
  have hr := idLoopL_cons c cs lx.line lx.col hid
  split
  · simp
    omega
  · simp only [_add_sym_eq]
    simp
    omega

theorem charTail_le (sl sc : Nat) (dv : List Char) (lx : Lexer) :
    (charTail sl sc dv lx).1.rest.length ≤ lx.rest.length := by
  unfold charTail
  dsimp only
  have hr := extraLoopL_len lx.rest lx.line lx.col
  split
  · rename_i cs2 heq3
    have hl := congrArg List.length heq3
    simp at hl
    split
    · simp only [_add_const_eq]
      show cs2.length ≤ lx.rest.length
      omega
    · show cs2.length ≤ lx.rest.length
      omega
  · exact hr

theorem charXFail_le (sl sc : Nat) (dv : List Char) (lx : Lexer) :
    (charXFail sl sc dv lx).1.rest.length ≤ lx.rest.length := by
  unfold charXFail
  dsimp only
  have hr := skipQNlL_len lx.rest lx.line lx.col
  split
  · refine le_trans (advance_le _) ?_
    exact hr
  · exact hr

theorem _scan_char_le (lx : Lexer) (res : Lexer × Option Token) (h : _scan_char lx = some res) :
    res.1.rest.length ≤ (advance lx).rest.length := by
  unfold _scan_char at h
  dsimp only at h
  split at h
  · injection h with h
    subst h
    exact le_refl _
  · rename_i c1 cs1 heq2
    have h2 : (advance (advance lx)).rest = cs1 := advance_rest _ c1 cs1 heq2
    have hlen1 : (advance lx).rest.length = cs1.length + 1 := by rw [heq2]; simp
    split at h
    · injection h with h
      subst h
      exact le_refl _
    · split at h
      · injection h with h
        subst h
        show (advance (advance lx)).rest.length ≤ (advance lx).rest.length
        exact advance_le _
      · split at h
        · split at h
          · injection h with h
            subst h
            show (advance (advance lx)).rest.length ≤ (advance lx).rest.length
            exact advance_le _
          · rename_i ec cs2
            have h3 : (advance (advance (advance lx))).rest = cs2 :=
              advance_rest _ ec cs2 h2
            simp only [List.length_cons] at hlen1
            split at h
            · split at h
              · injection h with h
                subst h
                refine le_trans (charXFail_le _ _ _ _) ?_
                rw [h3]
                omega
              · injection h with h
                subst h
                refine le_trans (charTail_le _ _ _ _) ?_
                show (upTo2 isHexChar (advance (advance (advance lx))).rest).1.length ≤
                  (advance lx).rest.length
                rw [h3]
                have hup := upTo2_len isHexChar cs2
                omega
            · split at h
              · injection h with h
                subst h
                refine le_trans (charTail_le _ _ _ _) ?_
                rw [h3]
                omega
              · split at h
                · split at h
                  · exact Option.noConfusion h
                  · injection h with h
                    subst h
                    refine le_trans (charTail_le _ _ _ _) ?_
                    show (upTo2 isOctChar (advance (advance (advance lx))).rest).1.length ≤
                      (advance lx).rest.length
                    rw [h3]
                    have hup := upTo2_len isOctChar cs2
                    omega
                · injection h with h
                  subst h
                  refine le_trans (charTail_le _ _ _ _) ?_
                  show (advance (advance (advance lx))).rest.length ≤ (advance lx).rest.length
                  rw [h3]
                  omega
        · injection h with h
          subst h
          refine le_trans (charTail_le _ _ _ _) ?_
          exact advance_le _

theorem _scan_string_le (lx : Lexer) (res : Lexer × Option Token) (h : _scan_string lx = some res) :
    res.1.rest.length ≤ (advance lx).rest.length := by
  unfold _scan_string at h
  dsimp only at h
  split at h
  · exact Option.noConfusion h
  · rename_i r l co errs v ct heq2
    have hsp := strLoopL_spec _ _ _ _ _ _ _ _ _ _ _ _ heq2
    have hv := congrArg List.length hsp.1
    simp only [List.length_append] at hv
    split at h
    · rename_i cs3
      injection h with h
      subst h
      simp only [List.length_cons] at hv
      simp only [_add_const_eq]
      show cs3.length ≤ (advance lx).rest.length
      omega
    · injection h with h
      subst h
      show r.length ≤ (advance lx).rest.length
      omega

theorem not_single_mem_DOUBLE_OPS (c : Char) : (⟨[c]⟩ : String) ∉ DOUBLE_OPS := by
  intro h
  have hlen : ∀ s ∈ DOUBLE_OPS, s.length = 2 := by decide
  have h2 : (1 : Nat) = 2 := hlen _ h
  exact absurd h2 (by decide)

theorem opOne_lt (sl sc : Nat) (lx : Lexer) (c : Char) (cs : List Char)
    (heq : lx.rest = c :: cs) (hc : c ∈ SINGLE_OPS) :
    (opOne sl sc lx).1.rest.length < lx.rest.length := by
  unfold opOne
  rw [heq]
  dsimp only
  rw [if_pos hc]
  show (advance lx).rest.length < (c :: cs).length
  rw [advance_rest lx c cs heq]
  simp

theorem opTwoOrOne_lt (sl sc : Nat) (lx : Lexer) (c : Char) (cs : List Char)
    (heq : lx.rest = c :: cs) (hc : c ∈ SINGLE_OPS ∨ peekStr c cs ∈ DOUBLE_OPS) :
    (opTwoOrOne sl sc lx).1.rest.length < lx.rest.length := by
  unfold opTwoOrOne
  rw [heq]
  match cs with
  | [] =>
    dsimp only
    rcases hc with hc | hc
    · have h1 := opOne_lt sl sc lx c [] heq hc
      rw [heq] at h1
      exact h1
    · exact absurd hc (not_single_mem_DOUBLE_OPS c)
  | c2 :: cs2 =>
    dsimp only
    split
    · have h1 : (advance lx).rest = c2 :: cs2 := advance_rest lx c (c2 :: cs2) heq
      have h2 : (advance (advance lx)).rest = cs2 := advance_rest _ c2 cs2 h1
      show (advance (advance lx)).rest.length < (c :: c2 :: cs2).length
      rw [h2]
      simp
      omega
    · rename_i hne
      rcases hc with hc | hc
      · have h1 := opOne_lt sl sc lx c (c2 :: cs2) heq hc
        rw [heq] at h1
        exact h1
      · exact absurd hc hne

theorem _scan_op_lt (lx : Lexer) (c : Char) (cs : List Char)
    (heq : lx.rest = c :: cs) (hc : c ∈ SINGLE_OPS ∨ peekStr c cs ∈ DOUBLE_OPS) :
    (_scan_op lx).1.rest.length < lx.rest.length := by
  unfold _scan_op
  rw [heq]
  match cs with
  | [] =>
    dsimp only
    have h1 := opTwoOrOne_lt lx.line lx.col lx c [] heq hc
    rw [heq] at h1
    exact h1
  | [c2] =>
    dsimp only
    have h1 := opTwoOrOne_lt lx.line lx.col lx c [c2] heq hc
    rw [heq] at h1
    exact h1
  | c2 :: c3 :: cs3 =>
    dsimp only
    split
    · have h1 : (advance lx).rest = c2 :: c3 :: cs3 := advance_rest lx c _ heq
      have h2 : (advance (advance lx)).rest = c3 :: cs3 := advance_rest _ c2 _ h1
      have h3 : (advance (advance (advance lx))).rest = cs3 := advance_rest _ c3 _ h2
      show (advance (advance (advance lx))).rest.length < (c :: c2 :: c3 :: cs3).length
      rw [h3]
      simp
      omega
    · have h1 := opTwoOrOne_lt lx.line lx.col lx c (c2 :: c3 :: cs3) heq hc
      rw [heq] at h1
      exact h1

theorem _scan_delim_lt (lx : Lexer) (c : Char) (cs : List Char)
    (heq : lx.rest = c :: cs) (hc : c ∈ DELIMITERS) :
    (_scan_delim lx).1.rest.length < lx.rest.length := by
  unfold _scan_delim
  rw [heq]
  dsimp only
  rw [if_pos hc]
  show (advance lx).rest.length < (c :: cs).length
  rw [advance_rest lx c cs heq]
  simp

set_option maxHeartbeats 2000000 in
theorem tokenizeLoop_adequate : ∀ (fuel : Nat) (lx : Lexer), lx.rest.length < fuel →
    (tokenizeLoop fuel lx).isSome = true := by
  intro fuel
  induction fuel with
  | zero => intro lx h; omega
  | succ fuel ih =>
    intro lx hfuel
    simp only [tokenizeLoop]
    split
    · rfl
    · split
      · rfl
      · rename_i lx1 heqws
        have hws := _skip_ws_some lx lx1 heqws
        split
        · rfl
        · split
          · rename_i lx2 heqc
            apply ih
            have := _skip_comment_true_lt lx1 lx2 heqc
            omega
          · rename_i lx2 heqc
            have heq2 : lx2 = lx1 := _skip_comment_false_eq lx1 lx2 heqc
            subst heq2
            split
            · rename_i heqr
              exact absurd heqr hws.2
            · rename_i ch cs heqr
              have hlen : lx2.rest.length = cs.length + 1 := by rw [heqr]; simp
              split
              · rename_i hid
                apply ih
                have := _scan_id_lt lx2 ch cs heqr hid
                show (_scan_id lx2).1.rest.length < fuel
                omega
              · split
                · rename_i hdig
                  apply ih
                  rw [pushTok_rest]
                  have := _scan_num_lt lx2 ch cs heqr hdig
                  omega
                · split
                  · rename_i hdot
                    simp only [Bool.and_eq_true, decide_eq_true_eq] at hdot
                    obtain ⟨hch, hmat⟩ := hdot
                    subst hch
                    match cs, heqr, hmat with
                    | d :: t, heqr, hmat =>
                      apply ih
                      rw [pushTok_rest]
                      have := _scan_leading_dot_number_lt lx2 d t heqr hmat
                      simp only [List.length_cons] at hlen
                      omega
                  · split
                    · split
                      · rfl
                      · rename_i lx3 t heqsc
                        apply ih
                        rw [pushTok_rest]
                        have hle := _scan_char_le lx2 (lx3, t) heqsc
                        dsimp only at hle
                        rw [advance_rest lx2 ch cs heqr] at hle
                        show lx3.rest.length < fuel
                        omega
                    · split
                      · split
                        · rfl
                        · rename_i lx3 t heqsc
                          apply ih
                          rw [pushTok_rest]
                          have hle := _scan_string_le lx2 (lx3, t) heqsc
                          dsimp only at hle
                          rw [advance_rest lx2 ch cs heqr] at hle
                          show lx3.rest.length < fuel
                          omega
                      · split
                        · rename_i hop
                          split
                          · rename_i hslash
                            simp only [Bool.and_eq_true, decide_eq_true_eq] at hslash
                            obtain ⟨hch, hmat⟩ := hslash
                            subst hch
                            match cs, heqr, hmat with
                            | c2 :: cs2, heqr, hmat =>
                              have hshape := _skip_comment_shape lx2 c2 cs2 heqr
                                (by simpa using hmat)
                              rw [heqc] at hshape
                              exact Bool.noConfusion hshape
                          · apply ih
                            rw [pushTok_rest]
                            have hop2 : ch ∈ SINGLE_OPS ∨ peekStr ch cs ∈ DOUBLE_OPS := by
                              simpa using hop
                            have := _scan_op_lt lx2 ch cs heqr hop2
                            omega
                        · split
                          · rename_i hdel
                            split
                            · rfl
                            · apply ih
                              rw [pushTok_rest]
                              have := _scan_delim_lt lx2 ch cs heqr hdel
                              omega
                          · apply ih
                            rw [advance_rest _ ch cs (by exact heqr)]
                            omega

theorem blockLoopL_noClose : ∀ (cs : List Char) (l c sl sc : Nat) (es : List LexError),
    noClose cs = true →
    (blockLoopL cs l c sl sc es).1 = [] ∧
    (blockLoopL cs l c sl sc es).2.2.2 =
      es ++ [⟨"UNCLOSED_COMMENT", sl, sc, "/*", ""⟩] := by
  intro cs l c sl sc es h
  induction cs, l, c, sl, sc, es using blockLoopL.induct with
  | case1 => simp [blockLoopL]
  | case2 => simp [noClose] at h
  | case3 x xs l c sl sc es hne ih =>
    simp only [noClose] at h
    simp only [blockLoopL]
    exact ih h

theorem _skip_ws_no_ws (lx : Lexer) (c : Char) (cs : List Char)
    (heq : lx.rest = c :: cs) (hc : isWsChar c = false) : _skip_ws lx = some lx := by
  unfold _skip_ws
  rw [heq]
  simp only [skipWsL, hc, Bool.false_eq_true, if_false]
  rw [← heq]

theorem _skip_comment_none (lx : Lexer) (c : Char) (cs : List Char)
    (heq : lx.rest = c :: cs) (hc : ¬(c = '/')) : _skip_comment lx = (lx, false) := by
  unfold _skip_comment
  rw [heq]
  split
  · rename_i tl heq2
    injection heq2 with h1 _
    exact absurd h1 hc
  · rename_i cs2 heq2
    injection heq2 with h1 _
    exact absurd h1 hc
  · rfl

theorem _skip_comment_block (lx : Lexer) (cs : List Char)
    (heq : lx.rest = '/' :: '*' :: cs) :
    _skip_comment lx =
      ({ lx with
          rest := (blockLoopL cs (nextLine '*' (nextLine '/' lx.line))
            (nextCol '*' (nextCol '/' lx.col)) lx.line lx.col lx.errors).1,
          line := (blockLoopL cs (nextLine '*' (nextLine '/' lx.line))
            (nextCol '*' (nextCol '/' lx.col)) lx.line lx.col lx.errors).2.1,
          col := (blockLoopL cs (nextLine '*' (nextLine '/' lx.line))
            (nextCol '*' (nextCol '/' lx.col)) lx.line lx.col lx.errors).2.2.1,
          errors := (blockLoopL cs (nextLine '*' (nextLine '/' lx.line))
            (nextCol '*' (nextCol '/' lx.col)) lx.line lx.col lx.errors).2.2.2 }, true) := by
  unfold _skip_comment
  rw [heq]
  split
  · rename_i tl heq2
    injection heq2 with _ h2
    injection h2 with h3 _
    exact absurd h3.symm (by decide)
  · rename_i cs2 heq2
    injection heq2 with _ h2
    injection h2 with _ h3
    subst h3
    rfl
  · rename_i h1 h2
    exact absurd rfl (h2 cs)

/-- C6: if a block comment `/* ...` is never closed by `*/` before the end of
the input, the scanner records exactly one unclosed-comment error anchored at
the line/column of the opening `/*`, consumes the rest of the input, and
produces no further tokens or errors after that point: from any state whose
remaining input is `/*` followed by text with no `*/`, the driver loop
returns with empty remaining input, the token list unchanged, exactly one
`UNCLOSED_COMMENT` error appended (anchored at the current position, where
the `/*` starts), and the tables unchanged. -/
theorem C6_unclosed_comment (fuel : Nat) (lx : Lexer) (cs : List Char)
    (heq : lx.rest = '/' :: '*' :: cs) (hnc : noClose cs = true) :
    ∃ l2 c2, tokenizeLoop (fuel + 2) lx =
      some (some ⟨[], l2, c2, lx.tokens,
        lx.errors ++ [⟨"UNCLOSED_COMMENT", lx.line, lx.col, "/*", ""⟩],
        lx.sym_table, lx.const_table⟩) := by
  obtain ⟨hb1, hb2⟩ := blockLoopL_noClose cs (nextLine '*' (nextLine '/' lx.line))
    (nextCol '*' (nextCol '/' lx.col)) lx.line lx.col lx.errors hnc
  refine ⟨(blockLoopL cs (nextLine '*' (nextLine '/' lx.line))
      (nextCol '*' (nextCol '/' lx.col)) lx.line lx.col lx.errors).2.1,
    (blockLoopL cs (nextLine '*' (nextLine '/' lx.line))
      (nextCol '*' (nextCol '/' lx.col)) lx.line lx.col lx.errors).2.2.1, ?_⟩
  have hne : lx.rest.isEmpty = false := by rw [heq]; rfl
  have hws := _skip_ws_no_ws lx '/' ('*' :: cs) heq (by decide)
  have hcm := _skip_comment_block lx cs heq
  show tokenizeLoop (fuel + 1 + 1) lx = _
  rw [tokenizeLoop]
  rw [hne]
  simp only [Bool.false_eq_true, if_false]
  rw [hws]
  dsimp only
  rw [hne]
  simp only [Bool.false_eq_true, if_false]
  rw [hcm]
  dsimp only
  rw [tokenizeLoop]
  dsimp only
  simp only [hb1, hb2, List.isEmpty_nil, if_true]

theorem charTail_errors (sl sc : Nat) (dv : List Char) (lx : Lexer) :
    ∀ e ∈ (charTail sl sc dv lx).1.errors, e ∈ lx.errors ∨ (e.line = sl ∧ e.col = sc) := by
  unfold charTail
  dsimp only
  split
  · split
    · simp only [_add_const_eq]
      intro e he
      exact Or.inl he
    · intro e he
      simp only [List.mem_append, List.mem_singleton] at he
      rcases he with he | he
      · exact Or.inl he
      · subst he
        exact Or.inr ⟨rfl, rfl⟩
  · intro e he
    simp only [List.mem_append, List.mem_singleton] at he
    rcases he with he | he
    · exact Or.inl he
    · subst he
      exact Or.inr ⟨rfl, rfl⟩

theorem charXFail_errors (sl sc : Nat) (dv : List Char) (lx : Lexer) :
    ∀ e ∈ (charXFail sl sc dv lx).1.errors, e ∈ lx.errors ∨ (e.line = sl ∧ e.col = sc) := by
  unfold charXFail
  dsimp only
  split
  · intro e he
    simp only [advance_errors] at he
    simp only [List.mem_append, List.mem_singleton] at he
    rcases he with he | he
    · exact Or.inl he
    · subst he
      exact Or.inr ⟨rfl, rfl⟩
  · intro e he
    simp only [List.mem_append, List.mem_singleton] at he
    rcases he with he | he
    · exact Or.inl he
    · subst he
      exact Or.inr ⟨rfl, rfl⟩

theorem _scan_char_errors (lx : Lexer) (res : Lexer × Option Token) (h : _scan_char lx = some res) :
    ∀ e ∈ res.1.errors, e ∈ lx.errors ∨ (e.line = lx.line ∧ e.col = lx.col) := by
  unfold _scan_char at h
  dsimp only at h
  split at h
  · injection h with h
    subst h
    intro e he
    simp only [advance_errors, List.mem_append, List.mem_singleton] at he
    rcases he with he | he
    · exact Or.inl he
    · subst he
      exact Or.inr ⟨rfl, rfl⟩
  · split at h
    · injection h with h
      subst h
      intro e he
      simp only [advance_errors, List.mem_append, List.mem_singleton] at he
      rcases he with he | he
      · exact Or.inl he
      · subst he
        exact Or.inr ⟨rfl, rfl⟩
    · split at h
      · injection h with h
        subst h
        intro e he
        simp only [advance_errors, List.mem_append, List.mem_singleton] at he
        rcases he with he | he
        · exact Or.inl he
        · subst he
          exact Or.inr ⟨rfl, rfl⟩
      · split at h
        · split at h
          · injection h with h
            subst h
            intro e he
            simp only [advance_errors, List.mem_append, List.mem_singleton] at he
            rcases he with he | he
            · exact Or.inl he
            · subst he
              exact Or.inr ⟨rfl, rfl⟩
          · split at h
            · split at h
              · injection h with h
                subst h
                intro e he
                have h2 := charXFail_errors _ _ _ _ e he
                simp only [advance_errors] at h2
                exact h2
              · injection h with h
                subst h
                intro e he
                have h2 := charTail_errors _ _ _ _ e he
                simp only [advance_errors] at h2
                exact h2
            · split at h
              · injection h with h
                subst h
                intro e he
                have h2 := charTail_errors _ _ _ _ e he
                simp only [advance_errors] at h2
                exact h2
              · split at h
                · split at h
                  · exact Option.noConfusion h
                  · injection h with h
                    subst h
                    intro e he
                    have h2 := charTail_errors _ _ _ _ e he
                    simp only [advance_errors] at h2
                    exact h2
                · injection h with h
                  subst h
                  intro e he
                  have h2 := charTail_errors _ _ _ _ e he
                  simp only [advance_errors, List.mem_append, List.mem_singleton] at h2
                  rcases h2 with (h2 | h2) | h2
                  · exact Or.inl h2
                  · subst h2
                    exact Or.inr ⟨rfl, rfl⟩
                  · exact Or.inr h2
        · injection h with h
          subst h
          intro e he
          have h2 := charTail_errors _ _ _ _ e he
          simp only [advance_errors] at h2
          exact h2

theorem _scan_string_errors (lx : Lexer) (res : Lexer × Option Token)
    (h : _scan_string lx = some res) :
    ∀ e ∈ res.1.errors, e ∈ lx.errors ∨ (e.line = lx.line ∧ e.col = lx.col) := by
  unfold _scan_string at h
  dsimp only at h
  split at h
  · exact Option.noConfusion h
  · rename_i r l co errs v ct heq2
    have hsp := strLoopL_spec _ _ _ _ _ _ _ _ _ _ _ _ heq2
    have herr := hsp.2
    split at h
    · rename_i cs3
      injection h with h
      subst h
      intro e he
      simp only [_add_const_eq] at he
      have h2 := herr e he
      simp only [advance_errors] at h2
      exact h2
    · injection h with h
      subst h
      intro e he
      simp only [List.mem_append, List.mem_singleton] at he
      rcases he with he | he
      · have h2 := herr e he
        simp only [advance_errors] at h2
        exact h2
      · subst he
        exact Or.inr ⟨rfl, rfl⟩

theorem _scan_op_triple (lx : Lexer) (c1 c2 c3 : Char) (cs : List Char)
    (heq : lx.rest = c1 :: c2 :: c3 :: cs) (h : (⟨[c1, c2, c3]⟩ : String) ∈ TRIPLE_OPS) :
    _scan_op lx = (advance (advance (advance lx)),
      some ⟨CODE ⟨[c1, c2, c3]⟩, ⟨[c1, c2, c3]⟩, "-", lx.line, lx.col⟩) := by
  unfold _scan_op
  rw [heq]
  dsimp only
  rw [if_pos h]

theorem opTwoOrOne_double (sl sc : Nat) (lx : Lexer) (c1 c2 : Char) (cs : List Char)
    (heq : lx.rest = c1 :: c2 :: cs) (h : (⟨[c1, c2]⟩ : String) ∈ DOUBLE_OPS) :
    opTwoOrOne sl sc lx = (advance (advance lx),
      some ⟨CODE ⟨[c1, c2]⟩, ⟨[c1, c2]⟩, "-", sl, sc⟩) := by
  unfold opTwoOrOne
  rw [heq]
  dsimp only
  rw [if_pos h]

theorem _scan_op_double (lx : Lexer) (c1 c2 : Char) (cs : List Char)
    (heq : lx.rest = c1 :: c2 :: cs)
    (hnt : ∀ c3 cs3, cs = c3 :: cs3 → (⟨[c1, c2, c3]⟩ : String) ∉ TRIPLE_OPS)
    (h : (⟨[c1, c2]⟩ : String) ∈ DOUBLE_OPS) :
    _scan_op lx = (advance (advance lx),
      some ⟨CODE ⟨[c1, c2]⟩, ⟨[c1, c2]⟩, "-", lx.line, lx.col⟩) := by
  unfold _scan_op
  rw [heq]
  match cs with
  | [] =>
    dsimp only
    exact opTwoOrOne_double lx.line lx.col lx c1 c2 [] heq h
  | c3 :: cs3 =>
    dsimp only
    rw [if_neg (hnt c3 cs3 rfl)]
    exact opTwoOrOne_double lx.line lx.col lx c1 c2 (c3 :: cs3) heq h

theorem opOne_single (sl sc : Nat) (lx : Lexer) (c1 : Char) (cs : List Char)
    (heq : lx.rest = c1 :: cs) (h : c1 ∈ SINGLE_OPS) :
    opOne sl sc lx = (advance lx, some ⟨CODE ⟨[c1]⟩, ⟨[c1]⟩, "-", sl, sc⟩) := by
  unfold opOne
  rw [heq]
  dsimp only
  rw [if_pos h]

theorem opTwoOrOne_single (sl sc : Nat) (lx : Lexer) (c1 : Char) (cs : List Char)
    (heq : lx.rest = c1 :: cs)
    (hnd : ∀ c2 cs2, cs = c2 :: cs2 → (⟨[c1, c2]⟩ : String) ∉ DOUBLE_OPS)
    (h : c1 ∈ SINGLE_OPS) :
    opTwoOrOne sl sc lx = (advance lx, some ⟨CODE ⟨[c1]⟩, ⟨[c1]⟩, "-", sl, sc⟩) := by
  unfold opTwoOrOne
  rw [heq]
  match cs with
  | [] =>
    dsimp only
    exact opOne_single sl sc lx c1 [] heq h
  | c2 :: cs2 =>
    dsimp only
    rw [if_neg (hnd c2 cs2 rfl)]
    exact opOne_single sl sc lx c1 (c2 :: cs2) heq h

theorem _scan_op_single (lx : Lexer) (c1 : Char) (cs : List Char)
    (heq : lx.rest = c1 :: cs)
    (hnd : ∀ c2 cs2, cs = c2 :: cs2 → (⟨[c1, c2]⟩ : String) ∉ DOUBLE_OPS)
    (hnt : ∀ c2 c3 cs3, cs = c2 :: c3 :: cs3 → (⟨[c1, c2, c3]⟩ : String) ∉ TRIPLE_OPS)
    (h : c1 ∈ SINGLE_OPS) :
    _scan_op lx = (advance lx, some ⟨CODE ⟨[c1]⟩, ⟨[c1]⟩, "-", lx.line, lx.col⟩) := by
  unfold _scan_op
  rw [heq]
  match cs with
  | [] =>
    dsimp only
    exact opTwoOrOne_single lx.line lx.col lx c1 [] heq hnd h
  | [c2] =>
    dsimp only
    exact opTwoOrOne_single lx.line lx.col lx c1 [c2] heq hnd h
  | c2 :: c3 :: cs3 =>
    dsimp only
    rw [if_neg (hnt c2 c3 cs3 rfl)]
    exact opTwoOrOne_single lx.line lx.col lx c1 (c2 :: c3 :: cs3) heq hnd h

/-- C7: consuming a `#` delimiter terminates scanning immediately after its
token is emitted, even if source text remains: from any state whose input
starts with `#`, the driver loop returns at once with the `#` token appended
and the rest of the text unconsumed; in particular `x;#y;` produces exactly
the tokens for `x`, `;`, `#` and nothing for `y` or the trailing `;`. -/
theorem C7_hash_terminator :
    (∀ (fuel : Nat) (lx : Lexer) (cs : List Char), lx.rest = '#' :: cs →
      tokenizeLoop (fuel + 1) lx = some (some ⟨cs, nextLine '#' lx.line, nextCol '#' lx.col,
        lx.tokens ++ [⟨CODE "#", "#", "-", lx.line, lx.col⟩],
        lx.errors, lx.sym_table, lx.const_table⟩)) ∧
    tokenize "x;#y;" = some (some ⟨['y', ';'], 1, 4,
      [⟨50, "x", "SYM:0", 1, 1⟩, ⟨136, ";", "-", 1, 2⟩, ⟨137, "#", "-", 1, 3⟩],
      [], ["x"], []⟩) := by
  constructor
  · intro fuel lx cs heq
    have hne : lx.rest.isEmpty = false := by rw [heq]; rfl
    have hws := _skip_ws_no_ws lx '#' cs heq (by decide)
    have hcm := _skip_comment_none lx '#' cs heq (by decide)
    have hadv : advance lx =
        { lx with rest := cs, line := nextLine '#' lx.line, col := nextCol '#' lx.col } := by
      unfold advance
      rw [heq]
    have hdel : _scan_delim lx =
        (advance lx, some ⟨CODE ⟨['#']⟩, ⟨['#']⟩, "-", lx.line, lx.col⟩) := by
      unfold _scan_delim
      rw [heq]
      dsimp only
      rw [if_pos (by decide)]
    have hop : ¬((decide ('#' ∈ SINGLE_OPS) || decide (peekStr '#' cs ∈ DOUBLE_OPS)) = true) := by
      intro hcon
      simp only [Bool.or_eq_true, decide_eq_true_eq] at hcon
      rcases hcon with hcon | hcon
      · exact absurd hcon (by decide)
      · have hh : ∀ s ∈ DOUBLE_OPS, s.data.head? ≠ some '#' := by decide
        have hpk : (peekStr '#' cs).data.head? = some '#' := by
          unfold peekStr
          cases cs <;> rfl
        exact absurd hpk (hh _ hcon)
    rw [tokenizeLoop]
    rw [hne]
    simp only [Bool.false_eq_true, if_false]
    rw [hws]
    dsimp only
    rw [hne]
    simp only [Bool.false_eq_true, if_false]
    rw [hcm]
    dsimp only
    rw [heq]
    dsimp only
    rw [if_neg (by decide)]
    rw [if_neg (by decide)]
    rw [if_neg (by simp)]
    rw [if_neg (show ¬('#' = '\x27') by decide)]
    rw [if_neg (show ¬('#' = '"') by decide)]
    rw [if_neg hop]
    rw [if_pos (by decide)]
    rw [hdel]
    dsimp only [pushTok]
    rw [if_pos rfl]
    rw [hadv]
  · rfl

/-- C8: for every well-formed string literal, the emitted STRING token's
lexeme equals the raw matched source text including the quotes and the
undecoded escape sequences (the consumed prefix of the input), and its
constant-table entry is keyed on that same raw form, not on the decoded
content: the new constant table is the lookup-or-insert of the raw lexeme
and the token's attribute carries that entry's index. -/
theorem C8_string_raw_lexeme (lx : Lexer) (cs : List Char) (lx2 : Lexer) (tok : Token)
    (hq : lx.rest = '"' :: cs) (h : _scan_string lx = some (lx2, some tok)) :
    tok.value.data ++ lx2.rest = lx.rest ∧
    tok.code = CODE "STRING" ∧
    lx2.const_table = (lookupOrInsert lx.const_table tok.value).1 ∧
    tok.attr = "CONST:" ++ toString (lookupOrInsert lx.const_table tok.value).2 := by
  unfold _scan_string at h
  dsimp only at h
  split at h
  · exact Option.noConfusion h
  · rename_i r l co errs v ct heq2
    have hsp := (strLoopL_spec _ _ _ _ _ _ _ _ _ _ _ _ heq2).1
    rw [advance_rest lx '"' cs hq] at hsp
    split at h
    · rename_i cs3
      injection h with h
      injection h with h1 h2
      injection h2 with h2
      subst h1
      subst h2
      refine ⟨?_, rfl, ?_, ?_⟩
      · show ('"' :: v ++ ['"']) ++ (_add_const _ _).1.rest = lx.rest
        simp only [_add_const_eq]
        show ('"' :: v ++ ['"']) ++ cs3 = lx.rest
        rw [hq]
        simp only [List.cons_append, List.append_assoc, List.singleton_append,
          List.nil_append]
        rw [hsp]
      · simp only [_add_const_eq]
        show (lookupOrInsert ((advance lx).const_table) _).1 = _
        rw [advance_const_table]
      · simp only [_add_const_eq]
        show "CONST:" ++ toString (lookupOrInsert ((advance lx).const_table) _).2 = _
        rw [advance_const_table]
    · injection h with h
      injection h with h1 h2
      exact Option.noConfusion h2

/-- C1 (counterexample): on the input `1abc;` the scanner does NOT report an
illegal-identifier error — the recorded error is `ILLEGAL_NUMBER` (from the
trailing-letter check of the decimal scanner), and no error of type
`ILLEGAL_ID` appears; `_scan_illegal_id` is never reached. -/
theorem C1_counterexample :
    tokenize "1abc;" = some (some ⟨[], 1, 6, [⟨136, ";", "-", 1, 5⟩],
      [⟨"ILLEGAL_NUMBER", 1, 1, "1abc", "数字后不能直接跟字母"⟩], [], []⟩) ∧
    (∀ e ∈ ([⟨"ILLEGAL_NUMBER", 1, 1, "1abc", "数字后不能直接跟字母"⟩] : List LexError),
      ¬(e.error_type = "ILLEGAL_ID")) :=
  ⟨rfl, by decide⟩

/-- C1 (amended): on the input `1abc;` the scanner consumes the whole run
`1abc`, records a single `ILLEGAL_NUMBER` error for it (offending text
`1abc`, anchored at its start, with the digit-followed-by-letter
qualifier), emits no token for the run, and then emits the `;` delimiter
token — scanning continues past the error. -/
theorem C1_illegal_number_recovery :
    tokenize "1abc;" = some (some ⟨[], 1, 6, [⟨136, ";", "-", 1, 5⟩],
      [⟨"ILLEGAL_NUMBER", 1, 1, "1abc", "数字后不能直接跟字母"⟩], [], []⟩) ∧
    (∀ e ∈ ([⟨"ILLEGAL_NUMBER", 1, 1, "1abc", "数字后不能直接跟字母"⟩] : List LexError),
      e.error_type = "ILLEGAL_NUMBER" ∧ e.value = "1abc" ∧ e.line = 1 ∧ e.col = 1) ∧
    (∀ t ∈ ([⟨136, ";", "-", 1, 5⟩] : List Token), t.value = ";") :=
  ⟨rfl, by decide, by decide⟩

/-- C2: the operator scanner obeys maximal munch: at an operator-start
position it emits the 3-character operator when the next three characters
form one, else the 2-character operator when the next two do, else the
single-character operator; in particular `a>>=b` tokenizes as `ID(a)`,
`>>=`, `ID(b)` and never as `>>` followed by `=`. -/
theorem C2_maximal_munch :
    (∀ (lx : Lexer) (c1 c2 c3 : Char) (cs : List Char),
      lx.rest = c1 :: c2 :: c3 :: cs → (⟨[c1, c2, c3]⟩ : String) ∈ TRIPLE_OPS →
      _scan_op lx = (advance (advance (advance lx)),
        some ⟨CODE ⟨[c1, c2, c3]⟩, ⟨[c1, c2, c3]⟩, "-", lx.line, lx.col⟩)) ∧
    (∀ (lx : Lexer) (c1 c2 : Char) (cs : List Char),
      lx.rest = c1 :: c2 :: cs →
      (∀ c3 cs3, cs = c3 :: cs3 → (⟨[c1, c2, c3]⟩ : String) ∉ TRIPLE_OPS) →
      (⟨[c1, c2]⟩ : String) ∈ DOUBLE_OPS →
      _scan_op lx = (advance (advance lx),
        some ⟨CODE ⟨[c1, c2]⟩, ⟨[c1, c2]⟩, "-", lx.line, lx.col⟩)) ∧
    (∀ (lx : Lexer) (c1 : Char) (cs : List Char),
      lx.rest = c1 :: cs →
      (∀ c2 cs2, cs = c2 :: cs2 → (⟨[c1, c2]⟩ : String) ∉ DOUBLE_OPS) →
      (∀ c2 c3 cs3, cs = c2 :: c3 :: cs3 → (⟨[c1, c2, c3]⟩ : String) ∉ TRIPLE_OPS) →
      c1 ∈ SINGLE_OPS →
      _scan_op lx = (advance lx, some ⟨CODE ⟨[c1]⟩, ⟨[c1]⟩, "-", lx.line, lx.col⟩)) ∧
    tokenize "a>>=b" = some (some ⟨[], 1, 6,
      [⟨50, "a", "SYM:0", 1, 1⟩, ⟨90, ">>=", "-", 1, 2⟩, ⟨50, "b", "SYM:1", 1, 5⟩],
      [], ["a", "b"], []⟩) :=
  ⟨_scan_op_triple, _scan_op_double, _scan_op_single, rfl⟩

/-- C2 witness: the maximal-munch theorem applied at `>>=b`: the three
characters `>>=` are taken as one operator token. -/
theorem C2_maximal_munch_witness :
    _scan_op ⟨['>', '>', '=', 'b'], 1, 1, [], [], [], []⟩ =
      (⟨['b'], 1, 4, [], [], [], []⟩, some ⟨90, ">>=", "-", 1, 1⟩) :=
  C2_maximal_munch.1 ⟨['>', '>', '=', 'b'], 1, 1, [], [], [], []⟩ '>' '>' '=' ['b'] rfl
    (by decide)

/-- C3: numeric literal classification: `42` yields INT; `3.14` yields
FLOAT; `.5` yields FLOAT; `0x1A` yields HEX; `017` yields OCT; `07.5`
yields FLOAT (octal-to-float fallback); `089` yields an illegal-octal
error with no token emitted. -/
theorem C3_numeric_classification :
    tokenize "42" = some (some ⟨[], 1, 3, [⟨51, "42", "CONST:0", 1, 1⟩], [], [], ["42"]⟩) ∧
    tokenize "3.14" = some (some ⟨[], 1, 5, [⟨52, "3.14", "CONST:0", 1, 1⟩], [], [], ["3.14"]⟩) ∧
    tokenize ".5" = some (some ⟨[], 1, 3, [⟨52, ".5", "CONST:0", 1, 1⟩], [], [], [".5"]⟩) ∧
    tokenize "0x1A" = some (some ⟨[], 1, 5, [⟨55, "0x1A", "CONST:0", 1, 1⟩], [], [], ["0x1A"]⟩) ∧
    tokenize "017" = some (some ⟨[], 1, 4, [⟨56, "017", "CONST:0", 1, 1⟩], [], [], ["017"]⟩) ∧
    tokenize "07.5" = some (some ⟨[], 1, 5, [⟨52, "07.5", "CONST:0", 1, 1⟩], [], [], ["07.5"]⟩) ∧
    tokenize "089" = some (some ⟨[], 1, 4, [],
      [⟨"ILLEGAL_OCT", 1, 1, "089", "八进制数不能包含8或9"⟩], [], []⟩) :=
  ⟨rfl, rfl, rfl, rfl, rfl, rfl, rfl⟩

/-- C10: letter-suffix rejection does not apply to hexadecimal literals once
at least one valid hex digit has been consumed: `0x1g` yields a HEX token
`0x1` immediately followed by an ID token `g` with no error, whereas for
decimal (`1g`) and octal (`07g`) literals a directly following letter makes
the whole run an illegal-number error. -/
theorem C10_hex_letter_suffix :
    tokenize "0x1g" = some (some ⟨[], 1, 5,
      [⟨55, "0x1", "CONST:0", 1, 1⟩, ⟨50, "g", "SYM:0", 1, 4⟩], [], ["g"], ["0x1"]⟩) ∧
    tokenize "1g" = some (some ⟨[], 1, 3, [],
      [⟨"ILLEGAL_NUMBER", 1, 1, "1g", "数字后不能直接跟字母"⟩], [], []⟩) ∧
    tokenize "07g" = some (some ⟨[], 1, 4, [],
      [⟨"ILLEGAL_NUMBER", 1, 1, "07g", ""⟩], [], []⟩) :=
  ⟨rfl, rfl, rfl⟩

/-- C4: identifier-table and constant-table determinism: lookup-or-insert
leaves a table unchanged when the spelling is present (returning its
first-occurrence index) and appends exactly the new spelling otherwise; it
preserves no-duplicates; looking the same spelling up twice yields the same
table and index; the returned index addresses that spelling, and nothing
before it does; the table grows exactly when the spelling is new;
`_add_sym`/`_add_const` are exactly lookup-or-insert on the respective
table; and every table reachable by `tokenize` has no duplicate entries. -/
theorem C4_table_determinism :
    (∀ (tbl : List String) (x : String), x ∈ tbl →
      lookupOrInsert tbl x = (tbl, indexOfL tbl x)) ∧
    (∀ (tbl : List String) (x : String), x ∉ tbl →
      lookupOrInsert tbl x = (tbl ++ [x], tbl.length)) ∧
    (∀ (tbl : List String) (x : String), tbl.Nodup → (lookupOrInsert tbl x).1.Nodup) ∧
    (∀ (tbl : List String) (x : String),
      lookupOrInsert (lookupOrInsert tbl x).1 x = lookupOrInsert tbl x) ∧
    (∀ (tbl : List String) (x : String),
      (lookupOrInsert tbl x).1[(lookupOrInsert tbl x).2]? = some x) ∧
    (∀ (tbl : List String) (x : String) (j : Nat), j < (lookupOrInsert tbl x).2 →
      (lookupOrInsert tbl x).1[j]? ≠ some x) ∧
    (∀ (tbl : List String) (x : String),
      (lookupOrInsert tbl x).1.length = if x ∈ tbl then tbl.length else tbl.length + 1) ∧
    (∀ (lx : Lexer) (s : String), _add_sym lx s =
      ({ lx with sym_table := (lookupOrInsert lx.sym_table s).1 },
       (lookupOrInsert lx.sym_table s).2)) ∧
    (∀ (lx : Lexer) (v : String), _add_const lx v =
      ({ lx with const_table := (lookupOrInsert lx.const_table v).1 },
       (lookupOrInsert lx.const_table v).2)) ∧
    (∀ (src : String) (lxf : Lexer), tokenize src = some (some lxf) →
      lxf.sym_table.Nodup ∧ lxf.const_table.Nodup) := by
  refine ⟨lookupOrInsert_mem, lookupOrInsert_not_mem, lookupOrInsert_nodup,
    lookupOrInsert_idem, lookupOrInsert_get, lookupOrInsert_first, ?_,
    fun lx s => _add_sym_eq lx s, fun lx v => _add_const_eq lx v, ?_⟩
  · intro tbl x
    by_cases h : x ∈ tbl
    · rw [lookupOrInsert_mem tbl x h, if_pos h]
    · rw [lookupOrInsert_not_mem tbl x h, if_neg h]
      simp
  · intro src lxf h
    exact tokenizeLoop_tablesOk _ _ _ h ⟨List.nodup_nil, List.nodup_nil⟩

/-- C4 witness: table determinism at concrete tables: a present spelling is
found at its first occurrence without growing the table, a new spelling is
appended, and the scan of `a>>=b a` ends with a duplicate-free symbol
table. -/
theorem C4_table_determinism_witness :
    lookupOrInsert ["a", "b"] "b" = (["a", "b"], 1) ∧
    lookupOrInsert ["a", "b"] "c" = (["a", "b"] ++ ["c"], 2) ∧
    (["a", "b"] : List String).Nodup ∧
    (lookupOrInsert ["a", "b"] "c").1.Nodup := by
  refine ⟨?_, ?_, ?_, ?_⟩
  · rw [C4_table_determinism.1 ["a", "b"] "b" (by decide)]
    rfl
  · exact C4_table_determinism.2.1 ["a", "b"] "c" (by decide)
  · decide
  · exact C4_table_determinism.2.2.1 ["a", "b"] "c" (by decide)

/-- C5: the termination half of the claim is real — `tokenize` never runs
out of fuel, every loop iteration consumes input — but the no-exception
half is not: on an input whose tail is all whitespace the Python
`_skip_ws` evaluates `None in ' \t\r\n'` and raises `TypeError`, and a
`\8`/`\9` octal escape in a character literal raises `ValueError` from
`chr(int(..., 8))`; both escape `tokenize` (modelled as `some none`). -/
theorem C5_exception_escapes :
    (∀ src : String, (tokenize src).isSome = true) ∧
    tokenize " " = some none ∧
    tokenize "a\n" = some none ∧
    tokenize "'\\8'" = some none := by
  refine ⟨?_, rfl, rfl, rfl⟩
  intro src
  apply tokenizeLoop_adequate
  simp [initLexer]

/-- C6 witness: the unclosed-comment theorem applied to `/* ab`: the whole
input is absorbed and exactly one `UNCLOSED_COMMENT` error anchored at the
opening `/*` is recorded. -/
theorem C6_unclosed_comment_witness :
    ∃ l2 c2, tokenizeLoop (4 + 2) (initLexer "/* ab") =
      some (some ⟨[], l2, c2, [], [] ++ [⟨"UNCLOSED_COMMENT", 1, 1, "/*", ""⟩], [], []⟩) :=
  C6_unclosed_comment 4 (initLexer "/* ab") [' ', 'a', 'b'] rfl (by decide)

/-- C7 witness: the terminator theorem applied to a mid-scan state whose
input starts with `#`: the `#` token is emitted and the loop stops with
`z` unconsumed. -/
theorem C7_hash_terminator_witness :
    tokenizeLoop 5 ⟨['#', 'z'], 3, 7, [], [], [], []⟩ =
      some (some ⟨['z'], 3, 8, [⟨137, "#", "-", 3, 7⟩], [], [], []⟩) :=
  C7_hash_terminator.1 4 ⟨['#', 'z'], 3, 7, [], [], [], []⟩ ['z'] rfl

set_option maxHeartbeats 2000000 in
/-- C8 witness: the raw-lexeme theorem applied to the literal `"a\nb"`: the
token's lexeme is the raw source text with quotes and the `\n` escape kept
literal, and the constant table is keyed on that raw form. -/
theorem C8_string_raw_lexeme_witness :
    "\"a\\nb\"".data ++ ([] : List Char) = (initLexer "\"a\\nb\"").rest ∧
    (54 : Nat) = CODE "STRING" ∧
    (["\"a\\nb\""] : List String) = (lookupOrInsert [] "\"a\\nb\"").1 ∧
    "CONST:0" = "CONST:" ++ toString (lookupOrInsert [] "\"a\\nb\"").2 :=
  C8_string_raw_lexeme (initLexer "\"a\\nb\"") ['a', '\\', 'n', 'b', '"']
    ⟨[], 1, 7, [], [], [], ["\"a\\nb\""]⟩ ⟨54, "\"a\\nb\"", "CONST:0", 1, 1⟩ rfl
    (by simp +decide [_scan_string, initLexer, advance, strLoopL, upTo2, isHexChar,
      isOctChar, advLine, advCol, hexNum, octVal, hexDigVal, ESCAPE_CHARS, nextLine,
      nextCol, _add_const, lookupOrInsert, indexOfL, CODE])

theorem finishNum_errors (val : List Char) (hd he : Bool) (sl sc : Nat) (lx : Lexer) :
    (finishNum val hd he sl sc lx).1.errors = lx.errors := by
  unfold finishNum
  split
  · rfl
  · simp only [_add_const_eq]

theorem finishOct_errors (val : List Char) (sl sc : Nat) (lx : Lexer) :
    (finishOct val sl sc lx).1.errors = lx.errors := by
  unfold finishOct
  simp only [_add_const_eq]

theorem decimalSuffix_errors (val : List Char) (hd he : Bool) (sl sc : Nat) (lx : Lexer) :
    ∀ e ∈ (decimalSuffix val hd he sl sc lx).1.errors,
      e ∈ lx.errors ∨ (e.line = sl ∧ e.col = sc) := by
  unfold decimalSuffix
  split
  · split
    · split
      intro e he2
      simp only [List.mem_append, List.mem_singleton] at he2
      rcases he2 with he2 | he2
      · exact Or.inl he2
      · subst he2
        exact Or.inr ⟨rfl, rfl⟩
    · intro e he2
      rw [finishNum_errors] at he2
      exact Or.inl he2
  · intro e he2
    rw [finishNum_errors] at he2
    exact Or.inl he2

theorem decimalAfterDot_errors (val : List Char) (hd : Bool) (sl sc : Nat) (lx : Lexer) :
    ∀ e ∈ (decimalAfterDot val hd sl sc lx).1.errors,
      e ∈ lx.errors ∨ (e.line = sl ∧ e.col = sc) := by
  unfold decimalAfterDot
  dsimp only
  split
  · split
    · split
      · split
        · split
          · intro e he2
            simp only [List.mem_append, List.mem_singleton] at he2
            rcases he2 with he2 | he2
            · exact Or.inl he2
            · subst he2
              exact Or.inr ⟨rfl, rfl⟩
          · intro e he2
            have h3 := decimalSuffix_errors _ _ _ _ _ _ e he2
            exact h3
        · split
          · intro e he2
            simp only [List.mem_append, List.mem_singleton] at he2
            rcases he2 with he2 | he2
            · exact Or.inl he2
            · subst he2
              exact Or.inr ⟨rfl, rfl⟩
          · intro e he2
            have h3 := decimalSuffix_errors _ _ _ _ _ _ e he2
            exact h3
      · intro e he2
        simp only [List.mem_append, List.mem_singleton] at he2
        rcases he2 with he2 | he2
        · exact Or.inl he2
        · subst he2
          exact Or.inr ⟨rfl, rfl⟩
    · intro e he2
      exact decimalSuffix_errors _ _ _ _ _ _ e he2
  · intro e he2
    exact decimalSuffix_errors _ _ _ _ _ _ e he2

theorem _scan_decimal_part_errors (int_part : List Char) (sl sc : Nat) (lx : Lexer) :
    ∀ e ∈ (_scan_decimal_part int_part sl sc lx).1.errors,
      e ∈ lx.errors ∨ (e.line = sl ∧ e.col = sc) := by
  unfold _scan_decimal_part
  dsimp only
  split
  · split
    · intro e he2
      exact Or.inl he2
    · simp only [_add_const_eq]
      intro e he2
      exact Or.inl he2
  · split
    · intro e he2
      simp only [List.mem_append, List.mem_singleton] at he2
      rcases he2 with he2 | he2
      · exact Or.inl he2
      · subst he2
        exact Or.inr ⟨rfl, rfl⟩
    · split
      · intro e he2
        simp only [List.mem_append, List.mem_singleton] at he2
        rcases he2 with he2 | he2
        · exact Or.inl he2
        · subst he2
          exact Or.inr ⟨rfl, rfl⟩
      · intro e he2
        have h3 := decimalAfterDot_errors _ _ _ _ _ e he2
        exact h3
  · intro e he2
    have h3 := decimalAfterDot_errors _ _ _ _ _ e he2
    exact h3

theorem _scan_decimal_errors (sl sc : Nat) (lx : Lexer) :
    ∀ e ∈ (_scan_decimal sl sc lx).1.errors,
      e ∈ lx.errors ∨ (e.line = sl ∧ e.col = sc) := by
  unfold _scan_decimal
  dsimp only
  intro e he2
  have h3 := _scan_decimal_part_errors _ _ _ _ e he2
  exact h3

theorem _scan_octal_errors (sl sc : Nat) (lx : Lexer) :
    ∀ e ∈ (_scan_octal sl sc lx).1.errors,
      e ∈ lx.errors ∨ (e.line = sl ∧ e.col = sc) := by
  unfold _scan_octal
  split
  · dsimp only
    split
    · intro e he2
      simp only [List.mem_append, List.mem_singleton] at he2
      rcases he2 with he2 | he2
      · exact Or.inl he2
      · subst he2
        exact Or.inr ⟨rfl, rfl⟩
    · split
      · split
        · intro e he2
          simp only [List.mem_append, List.mem_singleton] at he2
          rcases he2 with he2 | he2
          · exact Or.inl he2
          · subst he2
            exact Or.inr ⟨rfl, rfl⟩
        · split
          · intro e he2
            have h3 := _scan_decimal_part_errors _ _ _ _ e he2
            exact h3
          · intro e he2
            rw [finishOct_errors] at he2
            exact Or.inl he2
      · intro e he2
        rw [finishOct_errors] at he2
        exact Or.inl he2
  · intro e he2
    exact Or.inl he2

theorem _scan_hex_errors (sl sc : Nat) (lx : Lexer) :
    ∀ e ∈ (_scan_hex sl sc lx).1.errors,
      e ∈ lx.errors ∨ (e.line = sl ∧ e.col = sc) := by
  unfold _scan_hex
  split
  · dsimp only
    split
    · split
      · split
        · intro e he2
          simp only [List.mem_append, List.mem_singleton] at he2
          rcases he2 with he2 | he2
          · exact Or.inl he2
          · subst he2
            exact Or.inr ⟨rfl, rfl⟩
        · intro e he2
          simp only [List.mem_append, List.mem_singleton] at he2
          rcases he2 with he2 | he2
          · exact Or.inl he2
          · subst he2
            exact Or.inr ⟨rfl, rfl⟩
      · intro e he2
        simp only [List.mem_append, List.mem_singleton] at he2
        rcases he2 with he2 | he2
        · exact Or.inl he2
        · subst he2
          exact Or.inr ⟨rfl, rfl⟩
    · simp only [_add_const_eq]
      intro e he2
      exact Or.inl he2
  · intro e he2
    exact Or.inl he2

theorem _scan_num_errors (lx : Lexer) :
    ∀ e ∈ (_scan_num lx).1.errors,
      e ∈ lx.errors ∨ (e.line = lx.line ∧ e.col = lx.col) := by
  unfold _scan_num
  split
  · split
    · intro e he2
      have h3 := _scan_hex_errors _ _ _ e he2
      exact h3
    · split
      · intro e he2
        have h3 := _scan_octal_errors _ _ _ e he2
        exact h3
      · intro e he2
        have h3 := _scan_decimal_errors _ _ _ e he2
        exact h3
  · intro e he2
    have h3 := _scan_decimal_errors _ _ _ e he2
    exact h3

theorem _scan_leading_dot_number_errors (lx : Lexer) :
    ∀ e ∈ (_scan_leading_dot_number lx).1.errors,
      e ∈ lx.errors ∨ (e.line = lx.line ∧ e.col = lx.col) := by
  unfold _scan_leading_dot_number
  split
  · split
    · intro e he2
      have h3 := _scan_decimal_part_errors _ _ _ _ e he2
      exact h3
    · intro e he2
      exact Or.inl he2
  · intro e he2
    exact Or.inl he2

theorem blockLoopL_errors : ∀ (cs : List Char) (l c sl sc : Nat) (es : List LexError),
    ∀ e ∈ (blockLoopL cs l c sl sc es).2.2.2,
      e ∈ es ∨ (e.line = sl ∧ e.col = sc) := by
  intro cs l c sl sc es
  induction cs, l, c, sl, sc, es using blockLoopL.induct with
  | case1 line col sl sc errs =>
    intro e he2
    simp only [blockLoopL] at he2
    simp only [List.mem_append, List.mem_singleton] at he2
    rcases he2 with he2 | he2
    · exact Or.inl he2
    · subst he2
      exact Or.inr ⟨rfl, rfl⟩
  | case2 =>
    intro e he2
    simp only [blockLoopL] at he2
    exact Or.inl he2
  | case3 x xs l c sl sc es hne ih =>
    intro e he2
    simp only [blockLoopL] at he2
    exact ih e he2

theorem _skip_comment_errors (lx : Lexer) :
    ∀ e ∈ (_skip_comment lx).1.errors,
      e ∈ lx.errors ∨ (e.line = lx.line ∧ e.col = lx.col) := by
  unfold _skip_comment
  split
  · intro e he2
    exact Or.inl he2
  · dsimp only
    intro e he2
    have h3 := blockLoopL_errors _ _ _ _ _ _ e he2
    exact h3
  · intro e he2
    exact Or.inl he2

/-- C9: every recorded error is anchored at the line/column where the
offending construct started, not where the problem was detected: every
error present after `_scan_char`, `_scan_string`, `_scan_num`,
`_scan_leading_dot_number` or `_skip_comment` either was already recorded
or carries the line/column at which the scanner was entered — in
particular, illegal-escape errors raised inside a character or string
literal are anchored at the literal's opening quote. -/
theorem C9_error_anchoring :
    (∀ (lx : Lexer) (res : Lexer × Option Token), _scan_char lx = some res →
      ∀ e ∈ res.1.errors, e ∈ lx.errors ∨ (e.line = lx.line ∧ e.col = lx.col)) ∧
    (∀ (lx : Lexer) (res : Lexer × Option Token), _scan_string lx = some res →
      ∀ e ∈ res.1.errors, e ∈ lx.errors ∨ (e.line = lx.line ∧ e.col = lx.col)) ∧
    (∀ lx : Lexer, ∀ e ∈ (_scan_num lx).1.errors,
      e ∈ lx.errors ∨ (e.line = lx.line ∧ e.col = lx.col)) ∧
    (∀ lx : Lexer, ∀ e ∈ (_scan_leading_dot_number lx).1.errors,
      e ∈ lx.errors ∨ (e.line = lx.line ∧ e.col = lx.col)) ∧
    (∀ lx : Lexer, ∀ e ∈ (_skip_comment lx).1.errors,
      e ∈ lx.errors ∨ (e.line = lx.line ∧ e.col = lx.col)) :=
  ⟨_scan_char_errors, _scan_string_errors, _scan_num_errors,
   _scan_leading_dot_number_errors, _skip_comment_errors⟩

set_option maxHeartbeats 2000000 in
/-- C9 witness: the anchoring theorem applied to the char literal `'\q'`
(illegal escape) and to the unterminated string `"ab`: each recorded error
carries the line/column of the literal's opening quote. -/
theorem C9_error_anchoring_witness :
    (∀ e ∈ ([⟨"ILLEGAL_ESCAPE", 1, 1, "\\q", ""⟩] : List LexError),
      e ∈ ([] : List LexError) ∨ (e.line = 1 ∧ e.col = 1)) ∧
    (∀ e ∈ ([⟨"UNCLOSED_STRING", 1, 1, "\"ab", ""⟩] : List LexError),
      e ∈ ([] : List LexError) ∨ (e.line = 1 ∧ e.col = 1)) := by
  constructor
  · exact C9_error_anchoring.1 (initLexer "'\\q'")
      (⟨[], 1, 5, [], [⟨"ILLEGAL_ESCAPE", 1, 1, "\\q", ""⟩], [], ["'\\q'"]⟩,
       some ⟨53, "'\\q'", "CONST:0", 1, 1⟩) rfl
  · exact C9_error_anchoring.2.1 (initLexer "\"ab")
      (⟨[], 1, 4, [], [⟨"UNCLOSED_STRING", 1, 1, "\"ab", ""⟩], [], []⟩, none)
      (by simp +decide [_scan_string, initLexer, advance, strLoopL, upTo2, isHexChar,
        isOctChar, advLine, advCol, hexNum, octVal, hexDigVal, ESCAPE_CHARS, nextLine,
        nextCol, _add_const, lookupOrInsert, indexOfL, CODE])
